import Mathlib

/-!
Verification of the `pot` binary serialization format (crate `pot`,
sources `src/pot/src/*.rs`).

The development shallowly embeds the format codec: bytes are natural
numbers below 256, byte streams are `List Nat`, machine integers are
`Nat`/`Int` with explicit `% 2 ^ w` where wrap-around matters, and
fallible reads return `Except`.  Bitwise composition in atom headers
places the kind bits, the continuation flag and the argument bits in
disjoint positions, so `|` from the source is rendered as `+` and the
shifts as multiplication/division by powers of two.

Floating point values are outside the embedding: the `Float` payloads of
atoms are carried as raw little-endian IEEE bit patterns, and code paths
that require IEEE arithmetic (rounding, narrowing checks) are marked with
a dedicated error value and are never exercised by the theorems below.
-/

instance {e a : Type} [DecidableEq e] [DecidableEq a] : DecidableEq (Except e a) :=
  fun x y =>
    match x, y with
    | .ok x, .ok y =>
      if h : x = y then isTrue (by rw [h]) else isFalse (by simp [h])
    | .error x, .error y =>
      if h : x = y then isTrue (by rw [h]) else isFalse (by simp [h])
    | .ok _, .error _ => isFalse (by simp)
    | .error _, .ok _ => isFalse (by simp)

namespace Pot

/-- Embeds `format.rs` `enum Kind` (the 3-bit atom type tag). -/
inductive Kind where
  | Special
  | Int
  | UInt
  | Float
  | Sequence
  | Map
  | Symbol
  | Bytes
  deriving DecidableEq, Repr

/-- Embeds `error.rs` `enum Error`.  Variants carrying only display
strings are modelled without their message payloads;
`floatSemanticsOutsideModel` and `outOfFuel` are model artifacts marking,
respectively, code paths that require IEEE float arithmetic and
exhaustion of the structural recursion fuel (never reached with enough
fuel). -/
inductive Error where
  | NotAPot
  | IncompatibleVersion
  | Message
  | TrailingBytes
  | Eof
  | ImpreciseCastWouldLoseData
  | SequenceSizeMustBeKnown
  | InvalidUtf8
  | InvalidKind (kind : Nat)
  | UnexpectedKind (encountered expected : Kind)
  | UnknownSymbol (id : Nat)
  | InvalidAtomHeader
  | TooManyBytesRead
  | UnsupportedByteCount (kind : Kind) (count : Nat)
  | floatSemanticsOutsideModel
  | outOfFuel
  deriving DecidableEq, Repr

/-- The discriminant of a `Kind`, `kind as u8` in the source. -/
def Kind.toU8 : Kind → Nat
  | .Special => 0
  | .Int => 1
  | .UInt => 2
  | .Float => 3
  | .Sequence => 4
  | .Map => 5
  | .Symbol => 6
  | .Bytes => 7

/-- Embeds `Kind::from_u8`. -/
def Kind.from_u8 (kind : Nat) : Except Error Kind :=
  match kind with
  | 0 => .ok .Special
  | 1 => .ok .Int
  | 2 => .ok .UInt
  | 3 => .ok .Float
  | 4 => .ok .Sequence
  | 5 => .ok .Map
  | 6 => .ok .Symbol
  | 7 => .ok .Bytes
  | other => .error (.InvalidKind other)

/-- Embeds `format.rs` `enum Special`. -/
inductive Special where
  | None
  | Unit
  | False
  | True
  | Named
  | DynamicMap
  | DynamicEnd
  deriving DecidableEq, Repr

/-- The discriminant of a `Special`, `special as u64` in the source. -/
def Special.toU64 : Special → Nat
  | .None => 0
  | .Unit => 1
  | .False => 2
  | .True => 3
  | .Named => 4
  | .DynamicMap => 5
  | .DynamicEnd => 6

/-- Embeds `TryFrom<u64> for Special` (`UnknownSpecial` is surfaced through
`Error::Message` by the `?` conversion in `read_atom`). -/
def Special.try_from (value : Nat) : Except Error Special :=
  match value with
  | 0 => .ok .None
  | 1 => .ok .Unit
  | 2 => .ok .False
  | 3 => .ok .True
  | 4 => .ok .Named
  | 5 => .ok .DynamicMap
  | 6 => .ok .DynamicEnd
  | _ => .error .Message

/-- Embeds `write_tiny_atom_header`: one byte, `kind << 5 | (arg & 0b1111)`.
The kind bits, the (cleared) continuation bit and the low nibble are
disjoint, so the byte is `kind * 32 + arg % 16`. -/
def write_tiny_atom_header (kind : Kind) (arg : Nat) : List Nat :=
  [kind.toU8 * 32 + arg % 16]

/-- Embeds `write_atom_header`.  For `arg < 16` a single byte is emitted;
otherwise the first byte carries the continuation flag (`+ 16`) and the low
nibble of the argument, and up to nine further bytes each carry seven bits,
flagged (`+ 128`) while more bits remain.  The tenth byte, if reached, is
`arg as u8`, i.e. the remaining bits reduced `% 256`, with no flag. -/
def write_atom_header (kind : Kind) (arg : Nat) : List Nat :=
  if arg < 16 then
    write_tiny_atom_header kind arg
  else
    let first_byte := kind.toU8 * 32 + 16 + arg % 16
    let arg1 := arg / 16
    if arg1 / 128 = 0 then [first_byte, arg1 % 128] else
    let arg2 := arg1 / 128
    if arg2 / 128 = 0 then [first_byte, arg1 % 128 + 128, arg2 % 128] else
    let arg3 := arg2 / 128
    if arg3 / 128 = 0 then
      [first_byte, arg1 % 128 + 128, arg2 % 128 + 128, arg3 % 128] else
    let arg4 := arg3 / 128
    if arg4 / 128 = 0 then
      [first_byte, arg1 % 128 + 128, arg2 % 128 + 128, arg3 % 128 + 128,
        arg4 % 128] else
    let arg5 := arg4 / 128
    if arg5 / 128 = 0 then
      [first_byte, arg1 % 128 + 128, arg2 % 128 + 128, arg3 % 128 + 128,
        arg4 % 128 + 128, arg5 % 128] else
    let arg6 := arg5 / 128
    if arg6 / 128 = 0 then
      [first_byte, arg1 % 128 + 128, arg2 % 128 + 128, arg3 % 128 + 128,
        arg4 % 128 + 128, arg5 % 128 + 128, arg6 % 128] else
    let arg7 := arg6 / 128
    if arg7 / 128 = 0 then
      [first_byte, arg1 % 128 + 128, arg2 % 128 + 128, arg3 % 128 + 128,
        arg4 % 128 + 128, arg5 % 128 + 128, arg6 % 128 + 128, arg7 % 128] else
    let arg8 := arg7 / 128
    if arg8 / 128 = 0 then
      [first_byte, arg1 % 128 + 128, arg2 % 128 + 128, arg3 % 128 + 128,
        arg4 % 128 + 128, arg5 % 128 + 128, arg6 % 128 + 128,
        arg7 % 128 + 128, arg8 % 128] else
    let arg9 := arg8 / 128
    [first_byte, arg1 % 128 + 128, arg2 % 128 + 128, arg3 % 128 + 128,
      arg4 % 128 + 128, arg5 % 128 + 128, arg6 % 128 + 128, arg7 % 128 + 128,
      arg8 % 128 + 128, arg9 % 256]

/-- Embeds the continuation loop of `read_atom_header`.  `bytes_remaining`
starts at 9; each byte contributes its low seven bits shifted into place
(`arg |= u64::from(data) << offset`, a `u64` operation, hence the
`% 2 ^ 64` truncation of the shifted chunk).  The loop stops when a byte
has a clear high bit (`data == byte`) or after nine iterations. -/
def read_atom_header_loop (bytes_remaining offset arg : Nat) :
    List Nat → Except Error (Nat × List Nat)
  | [] => .error .Eof
  | byte :: rest =>
    let data := byte % 128
    let arg := arg + data * 2 ^ offset % 2 ^ 64
    if data = byte ∨ bytes_remaining - 1 = 0 then .ok (arg, rest)
    else read_atom_header_loop (bytes_remaining - 1) (offset + 7) arg rest

/-- Embeds `read_atom_header`: the kind is `first_byte >> 5`, the low
nibble seeds the argument, and bit 4 (`first_byte & 0b10000`) selects the
continuation loop. -/
def read_atom_header (input : List Nat) : Except Error (Kind × Nat × List Nat) :=
  match input with
  | [] => .error .Eof
  | first_byte :: rest =>
    match Kind.from_u8 (first_byte / 32) with
    | .error e => .error e
    | .ok kind =>
      if first_byte / 16 % 2 ≠ 0 then
        match read_atom_header_loop 9 4 (first_byte % 16) rest with
        | .error e => .error e
        | .ok (arg, rest) => .ok (kind, arg, rest)
      else
        .ok (kind, first_byte % 16, rest)

/-- Proof helper: the tail the unrolled writer emits after the first byte.
`chunkBytes a n` is the continuation chain for remaining argument `a` with
`n` seven-bit chunks left before the raw final byte. -/
def chunkBytes : Nat → Nat → List Nat
  | a, 0 => [a % 256]
  | a, n + 1 =>
    if a / 128 = 0 then [a % 128] else (a % 128 + 128) :: chunkBytes (a / 128) n

theorem write_atom_header_eq_chunks (kind : Kind) (arg : Nat) (h : ¬arg < 16) :
    write_atom_header kind arg =
      (kind.toU8 * 32 + 16 + arg % 16) :: chunkBytes (arg / 16) 8 := by
  simp only [write_atom_header, if_neg h]
  by_cases h1 : arg / 16 / 128 = 0
  · simp [chunkBytes, h1]
  by_cases h2 : arg / 16 / 128 / 128 = 0
  · simp [chunkBytes, h1, h2]
  by_cases h3 : arg / 16 / 128 / 128 / 128 = 0
  · simp [chunkBytes, h1, h2, h3]
  by_cases h4 : arg / 16 / 128 / 128 / 128 / 128 = 0
  · simp [chunkBytes, h1, h2, h3, h4]
  by_cases h5 : arg / 16 / 128 / 128 / 128 / 128 / 128 = 0
  · simp [chunkBytes, h1, h2, h3, h4, h5]
  by_cases h6 : arg / 16 / 128 / 128 / 128 / 128 / 128 / 128 = 0
  · simp [chunkBytes, h1, h2, h3, h4, h5, h6]
  by_cases h7 : arg / 16 / 128 / 128 / 128 / 128 / 128 / 128 / 128 = 0
  · simp [chunkBytes, h1, h2, h3, h4, h5, h6, h7]
  by_cases h8 : arg / 16 / 128 / 128 / 128 / 128 / 128 / 128 / 128 / 128 = 0
  · simp [chunkBytes, h1, h2, h3, h4, h5, h6, h7, h8]
  simp [chunkBytes, h1, h2, h3, h4, h5, h6, h7, h8]

theorem read_atom_header_loop_chunks (n : Nat) :
    ∀ a off acc rest, a * 2 ^ off + acc < 2 ^ 64 → off + 7 * n = 60 →
      read_atom_header_loop (n + 1) off acc (chunkBytes a n ++ rest) =
        .ok (acc + a * 2 ^ off, rest) := by
  induction n with
  | zero =>
    intro a off acc rest hlt hoff
    have hoff' : off = 60 := by omega
    subst hoff'
    have ha : a < 16 := by omega
    simp only [chunkBytes, List.cons_append, List.nil_append, read_atom_header_loop]
    rw [Nat.mod_eq_of_lt (show a < 256 by omega),
      Nat.mod_eq_of_lt (show a < 128 by omega)]
    simp only [or_true, if_true, ite_true, eq_self_iff_true, true_or]
    rw [Nat.mod_eq_of_lt (show a * 2 ^ 60 < 2 ^ 64 by omega)]
    rfl
  | succ n ih =>
    intro a off acc rest hlt hoff
    have hxle : a * 2 ^ off < 2 ^ 64 := lt_of_le_of_lt (Nat.le_add_right _ _) hlt
    by_cases hstop : a / 128 = 0
    · have ha : a < 128 := by omega
      simp only [chunkBytes, if_pos hstop, List.cons_append, List.nil_append,
        read_atom_header_loop]
      rw [Nat.mod_eq_of_lt ha, Nat.mod_eq_of_lt ha,
        if_pos (Or.inl rfl : a = a ∨ n + 1 + 1 - 1 = 0),
        Nat.mod_eq_of_lt hxle]
    · simp only [chunkBytes, if_neg hstop, List.cons_append, read_atom_header_loop]
      have hbyte : (a % 128 + 128) % 128 = a % 128 := by omega
      rw [hbyte, if_neg (by omega : ¬(a % 128 = a % 128 + 128 ∨ n + 1 + 1 - 1 = 0))]
      have hmle : a % 128 * 2 ^ off ≤ a * 2 ^ off :=
        mul_le_mul_right' (Nat.mod_le a 128) _
      rw [show n + 1 + 1 - 1 = n + 1 from rfl,
        Nat.mod_eq_of_lt (lt_of_le_of_lt hmle hxle)]
      have hsplit : a / 128 * 2 ^ (off + 7) + a % 128 * 2 ^ off = a * 2 ^ off := by
        calc a / 128 * 2 ^ (off + 7) + a % 128 * 2 ^ off
            = (a / 128 * 128 + a % 128) * 2 ^ off := by rw [pow_add]; ring
          _ = a * 2 ^ off := by rw [Nat.div_add_mod']
      have h2 : a / 128 * 2 ^ (off + 7) + (acc + a % 128 * 2 ^ off) < 2 ^ 64 := by
        linarith
      rw [ih (a / 128) (off + 7) _ rest h2 (by omega)]
      have hfin : acc + a % 128 * 2 ^ off + a / 128 * 2 ^ (off + 7) =
          acc + a * 2 ^ off := by linarith
      rw [hfin]

theorem Kind.from_u8_toU8 (k : Kind) : Kind.from_u8 k.toU8 = .ok k := by
  cases k <;> rfl

theorem Kind.toU8_le (k : Kind) : k.toU8 ≤ 7 := by cases k <;> simp [Kind.toU8]

theorem tiny_byte_div (t r : Nat) (hr : r < 16) (ht : t ≤ 7) :
    (t * 32 + r) / 32 = t := by omega

theorem tiny_byte_flag (t r : Nat) (hr : r < 16) : (t * 32 + r) / 16 % 2 = 0 := by
  omega

theorem tiny_byte_mod (t r : Nat) (hr : r < 16) : (t * 32 + r) % 16 = r := by omega

theorem big_byte_div (t r : Nat) (hr : r < 16) (ht : t ≤ 7) :
    (t * 32 + 16 + r) / 32 = t := by omega

theorem big_byte_flag (t r : Nat) (hr : r < 16) : (t * 32 + 16 + r) / 16 % 2 = 1 := by
  omega

theorem big_byte_mod (t r : Nat) (hr : r < 16) : (t * 32 + 16 + r) % 16 = r := by
  omega

/-- Round trip of the atom header codec, parametric in the trailing
stream. -/
theorem read_write_atom_header (k : Kind) (arg : Nat) (h : arg < 2 ^ 64)
    (rest : List Nat) :
    read_atom_header (write_atom_header k arg ++ rest) = .ok (k, arg, rest) := by
  have hk := k.toU8_le
  have hr : arg % 16 < 16 := Nat.mod_lt arg (by omega)
  by_cases h16 : arg < 16
  · have hm : arg % 16 = arg := Nat.mod_eq_of_lt h16
    simp only [write_atom_header, if_pos h16, write_tiny_atom_header,
      List.cons_append, List.nil_append, read_atom_header]
    rw [tiny_byte_div _ _ hr hk, Kind.from_u8_toU8]
    rw [tiny_byte_flag _ _ hr]
    simp only [ne_eq, not_true_eq_false, if_false, ite_false]
    rw [tiny_byte_mod _ _ hr, hm]
  · rw [write_atom_header_eq_chunks k arg h16]
    simp only [List.cons_append, read_atom_header]
    rw [big_byte_div _ _ hr hk, Kind.from_u8_toU8]
    rw [big_byte_flag _ _ hr]
    simp only [ne_eq, one_ne_zero, not_false_eq_true, if_true, ite_true]
    rw [big_byte_mod _ _ hr, show (9 : Nat) = 8 + 1 from rfl,
      read_atom_header_loop_chunks 8 (arg / 16) 4 (arg % 16) rest (by omega)
        (by omega)]
    rw [show arg % 16 + arg / 16 * 2 ^ 4 = arg by omega]

theorem write_atom_header_length_le (k : Kind) (arg : Nat) :
    (write_atom_header k arg).length ≤ 10 := by
  by_cases h16 : arg < 16
  · simp [write_atom_header, if_pos h16, write_tiny_atom_header]
  · rw [write_atom_header_eq_chunks k arg h16]
    have : ∀ n a, (chunkBytes a n).length ≤ n + 1 := by
      intro n
      induction n with
      | zero => intro a; simp [chunkBytes]
      | succ n ih =>
        intro a
        simp only [chunkBytes]
        split
        · simp
        · simpa using Nat.succ_le_succ (ih (a / 128))
    simpa using Nat.succ_le_succ (this 8 (arg / 16))

theorem write_atom_header_length_one_iff (k : Kind) (arg : Nat) :
    (write_atom_header k arg).length = 1 ↔ arg < 16 := by
  by_cases h16 : arg < 16
  · simp [write_atom_header, if_pos h16, write_tiny_atom_header, h16]
  · rw [write_atom_header_eq_chunks k arg h16]
    constructor
    · intro hlen
      exfalso
      have : (chunkBytes (arg / 16) 8).length ≥ 1 := by
        cases h : chunkBytes (arg / 16) 8 with
        | nil =>
          exfalso
          have hne : ∀ n a, chunkBytes a n ≠ [] := by
            intro n a
            cases n with
            | zero => simp [chunkBytes]
            | succ m =>
              simp only [chunkBytes]
              split <;> simp
          exact hne 8 (arg / 16) h
        | cons b bs => simp
      simp only [List.length_cons] at hlen
      omega
    · intro h; exact absurd h h16

theorem read_atom_header_loop_consume (input : List Nat) :
    ∀ br off acc a rest', read_atom_header_loop br off acc input = .ok (a, rest') →
      rest'.length < input.length ∧ input.length ≤ rest'.length + max br 1 := by
  induction input with
  | nil => intro br off acc a rest' h; simp [read_atom_header_loop] at h
  | cons byte rest ih =>
    intro br off acc a rest' h
    simp only [read_atom_header_loop] at h
    by_cases hc : byte % 128 = byte ∨ br - 1 = 0
    · rw [if_pos hc] at h
      cases h
      simp only [List.length_cons]
      omega
    · rw [if_neg hc] at h
      obtain ⟨h1, h2⟩ := ih (br - 1) (off + 7) _ a rest' h
      simp only [List.length_cons]
      omega

theorem read_atom_header_loop_no_invalid (input : List Nat) :
    ∀ br off acc e, read_atom_header_loop br off acc input = .error e → e = .Eof := by
  induction input with
  | nil =>
    intro br off acc e h
    simp only [read_atom_header_loop, Except.error.injEq] at h
    exact h.symm
  | cons byte rest ih =>
    intro br off acc e h
    simp only [read_atom_header_loop] at h
    by_cases hc : byte % 128 = byte ∨ br - 1 = 0
    · rw [if_pos hc] at h; exact absurd h (by simp)
    · rw [if_neg hc] at h; exact ih (br - 1) (off + 7) _ e h

/-- The Pot format magic plus version, `write_header`: a big-endian `u32`
`0x506F_7400 | version`; the version occupies the low byte where the magic
is zero, so `|` is `+`. -/
def write_header (version : Nat) : List Nat :=
  [0x50, 0x6F, 0x74, version % 256]

/-- Embeds `CURRENT_VERSION` from `format.rs`. -/
def CURRENT_VERSION : Nat := 0

/-- Embeds `format.rs` `read_header`: reads a big-endian `u32` and checks
`header & 0x506F_7400 == 0x506F_7400` (a mask test, not an equality on the
magic bytes); on failure the error is `IncompatibleVersion`.  The returned
version is `(header & 0xFF) as u8`. -/
def read_header (input : List Nat) : Except Error (Nat × List Nat) :=
  match input with
  | b0 :: b1 :: b2 :: b3 :: rest =>
    let header := b0 * 2 ^ 24 + b1 * 2 ^ 16 + b2 * 2 ^ 8 + b3
    if header &&& 0x506F7400 = 0x506F7400 then .ok (header % 256, rest)
    else .error .IncompatibleVersion
  | _ => .error .Eof

/-- Embeds `de.rs` `Deserializer::read_header`: accepts any version at most
`CURRENT_VERSION`, otherwise fails with `IncompatibleVersion`. -/
def deserializer_read_header (input : List Nat) : Except Error (List Nat) :=
  match read_header input with
  | .error e => .error e
  | .ok (version, rest) =>
    if version ≤ CURRENT_VERSION then .ok rest else .error .IncompatibleVersion

theorem land_magic (v : Nat) (hv : v < 256) :
    (0x506F7400 + v) &&& 0x506F7400 = 0x506F7400 := by
  interval_cases v <;> decide

theorem read_header_error_shape (input : List Nat) (e : Error)
    (h : read_header input = .error e) : e = .Eof ∨ e = .IncompatibleVersion := by
  unfold read_header at h
  split at h
  · dsimp only at h
    split at h
    · exact absurd h (by simp)
    · cases h; right; rfl
  · cases h; left; rfl

theorem deserializer_read_header_never_not_a_pot (input : List Nat) :
    deserializer_read_header input ≠ .error .NotAPot := by
  intro h
  unfold deserializer_read_header at h
  split at h
  · rename_i e heq
    cases h
    rcases read_header_error_shape input _ heq with h' | h' <;> cases h'
  · split at h
    · exact absurd h (by simp)
    · cases h

/-- C2: for every kind and every `u64` argument, `read_atom_header` applied
to the bytes produced by `write_atom_header` returns exactly that kind and
argument; the encoding is one byte if and only if the argument is below 16,
and is never longer than 10 bytes. -/
theorem pot_c2_theorem (k : Kind) (arg : Nat) (h : arg < 2 ^ 64)
    (rest : List Nat) :
    read_atom_header (write_atom_header k arg ++ rest) = .ok (k, arg, rest) ∧
    ((write_atom_header k arg).length = 1 ↔ arg < 16) ∧
    (write_atom_header k arg).length ≤ 10 :=
  ⟨read_write_atom_header k arg h rest, write_atom_header_length_one_iff k arg,
    write_atom_header_length_le k arg⟩

theorem pot_c2_theorem_witness :
    read_atom_header (write_atom_header .Map 300 ++ [7]) = .ok (.Map, 300, [7]) ∧
    ((write_atom_header .Map 300).length = 1 ↔ 300 < 16) ∧
    (write_atom_header .Map 300).length ≤ 10 :=
  pot_c2_theorem .Map 300 (by norm_num) [7]

/-- C6 (counterexample): a ten-byte atom header whose tenth byte still
carries a continuation flag (here `0x8F`) is read successfully — its low
bits are incorporated and no `InvalidAtomHeader` error is produced,
contrary to the claim that this is a fatal decode error. -/
theorem pot_c6_counterexample :
    read_atom_header [16, 128, 128, 128, 128, 128, 128, 128, 128, 143] =
      .ok (.Special, 15 * 2 ^ 60, []) := by decide

/-- C6 (amended): reading an atom header consumes at most 10 bytes; a
tenth byte is always final (its continuation flag is ignored), and the
reader never produces `InvalidAtomHeader` on any input. -/
theorem pot_c6_amended (input : List Nat) :
    read_atom_header input ≠ .error .InvalidAtomHeader ∧
    ∀ k arg rest, read_atom_header input = .ok (k, arg, rest) →
      rest.length < input.length ∧ input.length ≤ rest.length + 10 := by
  constructor
  · intro h
    unfold read_atom_header at h
    split at h
    · cases h
    · split at h
      · cases h
        rename_i heq
        revert heq
        unfold Kind.from_u8
        split <;> simp
      · split at h
        · split at h
          · cases h
            rename_i heq
            have := read_atom_header_loop_no_invalid _ _ _ _ _ heq
            cases this
          · cases h
        · cases h
  · intro k arg rest h
    unfold read_atom_header at h
    split at h
    · cases h
    · rename_i b tail
      split at h
      · cases h
      · split at h
        · split at h
          · cases h
          · rename_i heq
            cases h
            have := read_atom_header_loop_consume tail 9 4 (b % 16) arg rest heq
            simp only [List.length_cons]
            omega
        · cases h
          simp only [List.length_cons]
          omega

theorem pot_c6_amended_witness :
    read_atom_header [16, 128, 15] ≠ .error .InvalidAtomHeader ∧
    (([] : List Nat).length < ([16, 128, 15] : List Nat).length ∧
      ([16, 128, 15] : List Nat).length ≤ ([] : List Nat).length + 10) :=
  ⟨(pot_c6_amended [16, 128, 15]).1,
    (pot_c6_amended [16, 128, 15]).2 .Special 30720 [] (by decide)⟩

/-- C5 (counterexample): an input whose first three bytes are
`FF 6F 74` — not the magic `"Pot"` — is nevertheless accepted by the
header reader, because the check is a bit mask test; and an input failing
the mask test is rejected with `IncompatibleVersion`, not `NotAPot`. -/
theorem pot_c5_counterexample :
    deserializer_read_header [0xFF, 0x6F, 0x74, 0x00] = .ok [] ∧
    deserializer_read_header [0x00, 0x00, 0x00, 0x00] =
      .error .IncompatibleVersion ∧
    Error.IncompatibleVersion ≠ Error.NotAPot := by decide

/-- C5 (amended): the header reader accepts any 4-byte prefix whose
big-endian `u32` masked with `0x506F7400` equals `0x506F7400` (in
particular every input starting with the exact magic `"Pot"`), returning
the fourth byte as version; the deserializer then accepts the input if and
only if the version is at most `CURRENT_VERSION`, failing otherwise with
`IncompatibleVersion`; `NotAPot` is never produced. -/
theorem pot_c5_amended (version : Nat) (rest : List Nat) (hv : version < 256) :
    deserializer_read_header (0x50 :: 0x6F :: 0x74 :: version :: rest) =
      (if version ≤ CURRENT_VERSION then .ok rest
        else .error .IncompatibleVersion) ∧
    ∀ input, deserializer_read_header input ≠ .error .NotAPot := by
  refine ⟨?_, deserializer_read_header_never_not_a_pot⟩
  unfold deserializer_read_header read_header
  dsimp only
  rw [show (0x50 * 2 ^ 24 + 0x6F * 2 ^ 16 + 0x74 * 2 ^ 8 + version : Nat) =
    0x506F7400 + version by norm_num]
  rw [if_pos (land_magic version hv),
    show (0x506F7400 + version) % 256 = version by omega]

theorem pot_c5_amended_witness :
    deserializer_read_header [0x50, 0x6F, 0x74, 0, 9] = .ok [9] ∧
    deserializer_read_header [1, 2, 3] ≠ .error .NotAPot := by
  have h := pot_c5_amended 0 [9] (by norm_num)
  exact ⟨by simpa using h.1, h.2 [1, 2, 3]⟩

/-! ## Integer writers (`format.rs` `write_i8` .. `write_u128`) -/

/-- Little-endian byte encoding of `v` truncated to `n` bytes. -/
def leBytes : Nat → Nat → List Nat
  | 0, _ => []
  | n + 1, v => v % 256 :: leBytes n (v / 256)

/-- Little-endian two's-complement encoding of a signed value in `width`
bytes. -/
def intLeBytes (width : Nat) (v : Int) : List Nat :=
  leBytes width (v.emod (2 ^ (8 * width))).toNat

/-- Embeds `write_i8` (header via `write_atom_header`, argument
`size_of::<i8>() - 1 = 0`). -/
def write_i8 (v : Int) : List Nat :=
  write_atom_header .Int (1 - 1) ++ intLeBytes 1 v

/-- Embeds `write_i16`: narrows via `i8::try_from` first. -/
def write_i16 (v : Int) : List Nat :=
  if -(2 ^ 7) ≤ v ∧ v < 2 ^ 7 then write_i8 v
  else write_tiny_atom_header .Int (2 - 1) ++ intLeBytes 2 v

/-- Embeds `write_i24`: narrows via `i16::try_from` first. -/
def write_i24 (v : Int) : List Nat :=
  if -(2 ^ 15) ≤ v ∧ v < 2 ^ 15 then write_i16 v
  else write_tiny_atom_header .Int (3 - 1) ++ intLeBytes 3 v

/-- Embeds `write_i32`: narrows when the value fits 24 bits. -/
def write_i32 (v : Int) : List Nat :=
  if -(2 ^ 23) ≤ v ∧ v < 2 ^ 23 then write_i24 v
  else write_tiny_atom_header .Int (4 - 1) ++ intLeBytes 4 v

/-- Embeds `write_i48`: narrows via `i32::try_from` first. -/
def write_i48 (v : Int) : List Nat :=
  if -(2 ^ 31) ≤ v ∧ v < 2 ^ 31 then write_i32 v
  else write_tiny_atom_header .Int (6 - 1) ++ intLeBytes 6 v

/-- Embeds `write_i64`: narrows when the value fits 48 bits. -/
def write_i64 (v : Int) : List Nat :=
  if -(2 ^ 47) ≤ v ∧ v < 2 ^ 47 then write_i48 v
  else write_tiny_atom_header .Int (8 - 1) ++ intLeBytes 8 v

/-- Embeds `write_i128`: narrows via `i64::try_from` first. -/
def write_i128 (v : Int) : List Nat :=
  if -(2 ^ 63) ≤ v ∧ v < 2 ^ 63 then write_i64 v
  else write_tiny_atom_header .Int (16 - 1) ++ intLeBytes 16 v

/-- Embeds `write_u8`. -/
def write_u8 (v : Nat) : List Nat :=
  write_tiny_atom_header .UInt 0 ++ leBytes 1 v

/-- Embeds `write_u16`: narrows via `u8::try_from` first. -/
def write_u16 (v : Nat) : List Nat :=
  if v < 2 ^ 8 then write_u8 v
  else write_tiny_atom_header .UInt 1 ++ leBytes 2 v

/-- Embeds `write_u24`: narrows via `u16::try_from` first. -/
def write_u24 (v : Nat) : List Nat :=
  if v < 2 ^ 16 then write_u16 v
  else write_tiny_atom_header .UInt 2 ++ leBytes 3 v

/-- Embeds `write_u32`: narrows when the value fits 24 bits. -/
def write_u32 (v : Nat) : List Nat :=
  if v < 2 ^ 24 then write_u24 v
  else write_tiny_atom_header .UInt 3 ++ leBytes 4 v

/-- Embeds `write_u48`: narrows via `u32::try_from` first. -/
def write_u48 (v : Nat) : List Nat :=
  if v < 2 ^ 32 then write_u32 v
  else write_tiny_atom_header .UInt 5 ++ leBytes 6 v

/-- Embeds `write_u64`: narrows when the value fits 48 bits. -/
def write_u64 (v : Nat) : List Nat :=
  if v < 2 ^ 48 then write_u48 v
  else write_tiny_atom_header .UInt 7 ++ leBytes 8 v

/-- Embeds `write_u128`: narrows via `u64::try_from` first. -/
def write_u128 (v : Nat) : List Nat :=
  if v < 2 ^ 64 then write_u64 v
  else write_tiny_atom_header .UInt 15 ++ leBytes 16 v

/-- Spec-side definition: the smallest supported signed byte width
(`{1,2,3,4,6,8,16}`) that holds the value. -/
def minSignedWidth (v : Int) : Nat :=
  if -(2 ^ 7) ≤ v ∧ v < 2 ^ 7 then 1
  else if -(2 ^ 15) ≤ v ∧ v < 2 ^ 15 then 2
  else if -(2 ^ 23) ≤ v ∧ v < 2 ^ 23 then 3
  else if -(2 ^ 31) ≤ v ∧ v < 2 ^ 31 then 4
  else if -(2 ^ 47) ≤ v ∧ v < 2 ^ 47 then 6
  else if -(2 ^ 63) ≤ v ∧ v < 2 ^ 63 then 8
  else 16

/-- Spec-side definition: the smallest supported unsigned byte width
(`{1,2,3,4,6,8,16}`) that holds the value. -/
def minUnsignedWidth (v : Nat) : Nat :=
  if v < 2 ^ 8 then 1
  else if v < 2 ^ 16 then 2
  else if v < 2 ^ 24 then 3
  else if v < 2 ^ 32 then 4
  else if v < 2 ^ 48 then 6
  else if v < 2 ^ 64 then 8
  else 16

theorem leBytes_length (n : Nat) : ∀ v, (leBytes n v).length = n := by
  induction n with
  | zero => intro v; rfl
  | succ n ih => intro v; simp [leBytes, ih]

theorem intLeBytes_length (width : Nat) (v : Int) :
    (intLeBytes width v).length = width := leBytes_length _ _

theorem write_i8_minimal (v : Int) (h1 : -(2 ^ 7) ≤ v) (h2 : v < 2 ^ 7) :
    write_i8 v =
      write_tiny_atom_header .Int (minSignedWidth v - 1) ++
        intLeBytes (minSignedWidth v) v := by
  rw [show minSignedWidth v = 1 by unfold minSignedWidth; rw [if_pos ⟨h1, h2⟩]]
  rfl

theorem write_i16_minimal (v : Int) (h1 : -(2 ^ 15) ≤ v) (h2 : v < 2 ^ 15) :
    write_i16 v =
      write_tiny_atom_header .Int (minSignedWidth v - 1) ++
        intLeBytes (minSignedWidth v) v := by
  unfold write_i16
  split_ifs with h
  · exact write_i8_minimal v h.1 h.2
  · rw [show minSignedWidth v = 2 by
      unfold minSignedWidth; rw [if_neg h, if_pos ⟨h1, h2⟩]]

theorem write_i24_minimal (v : Int) (h1 : -(2 ^ 23) ≤ v) (h2 : v < 2 ^ 23) :
    write_i24 v =
      write_tiny_atom_header .Int (minSignedWidth v - 1) ++
        intLeBytes (minSignedWidth v) v := by
  unfold write_i24
  split_ifs with h
  · exact write_i16_minimal v h.1 h.2
  · rw [show minSignedWidth v = 3 by
      unfold minSignedWidth
      rw [if_neg (by omega), if_neg h, if_pos ⟨h1, h2⟩]]

theorem write_i32_minimal (v : Int) (h1 : -(2 ^ 31) ≤ v) (h2 : v < 2 ^ 31) :
    write_i32 v =
      write_tiny_atom_header .Int (minSignedWidth v - 1) ++
        intLeBytes (minSignedWidth v) v := by
  unfold write_i32
  split_ifs with h
  · exact write_i24_minimal v h.1 h.2
  · rw [show minSignedWidth v = 4 by
      unfold minSignedWidth
      rw [if_neg (by omega), if_neg (by omega), if_neg h, if_pos ⟨h1, h2⟩]]

theorem write_i48_minimal (v : Int) (h1 : -(2 ^ 47) ≤ v) (h2 : v < 2 ^ 47) :
    write_i48 v =
      write_tiny_atom_header .Int (minSignedWidth v - 1) ++
        intLeBytes (minSignedWidth v) v := by
  unfold write_i48
  split_ifs with h
  · exact write_i32_minimal v h.1 h.2
  · rw [show minSignedWidth v = 6 by
      unfold minSignedWidth
      rw [if_neg (by omega), if_neg (by omega), if_neg (by omega), if_neg h,
        if_pos ⟨h1, h2⟩]]

theorem write_i64_minimal (v : Int) (h1 : -(2 ^ 63) ≤ v) (h2 : v < 2 ^ 63) :
    write_i64 v =
      write_tiny_atom_header .Int (minSignedWidth v - 1) ++
        intLeBytes (minSignedWidth v) v := by
  unfold write_i64
  split_ifs with h
  · exact write_i48_minimal v h.1 h.2
  · rw [show minSignedWidth v = 8 by
      unfold minSignedWidth
      rw [if_neg (by omega), if_neg (by omega), if_neg (by omega),
        if_neg (by omega), if_neg h, if_pos ⟨h1, h2⟩]]

theorem write_i128_minimal (v : Int) (h1 : -(2 ^ 127) ≤ v) (h2 : v < 2 ^ 127) :
    write_i128 v =
      write_tiny_atom_header .Int (minSignedWidth v - 1) ++
        intLeBytes (minSignedWidth v) v := by
  unfold write_i128
  split_ifs with h
  · exact write_i64_minimal v h.1 h.2
  · rw [show minSignedWidth v = 16 by
      unfold minSignedWidth
      rw [if_neg (by omega), if_neg (by omega), if_neg (by omega),
        if_neg (by omega), if_neg (by omega), if_neg h]]

theorem write_u8_minimal (v : Nat) (h : v < 2 ^ 8) :
    write_u8 v =
      write_tiny_atom_header .UInt (minUnsignedWidth v - 1) ++
        leBytes (minUnsignedWidth v) v := by
  rw [show minUnsignedWidth v = 1 by unfold minUnsignedWidth; rw [if_pos h]]
  rfl

theorem write_u16_minimal (v : Nat) (h16 : v < 2 ^ 16) :
    write_u16 v =
      write_tiny_atom_header .UInt (minUnsignedWidth v - 1) ++
        leBytes (minUnsignedWidth v) v := by
  unfold write_u16
  split_ifs with h
  · exact write_u8_minimal v h
  · rw [show minUnsignedWidth v = 2 by
      unfold minUnsignedWidth; rw [if_neg h, if_pos h16]]

theorem write_u24_minimal (v : Nat) (h24 : v < 2 ^ 24) :
    write_u24 v =
      write_tiny_atom_header .UInt (minUnsignedWidth v - 1) ++
        leBytes (minUnsignedWidth v) v := by
  unfold write_u24
  split_ifs with h
  · exact write_u16_minimal v h
  · rw [show minUnsignedWidth v = 3 by
      unfold minUnsignedWidth; rw [if_neg (by omega), if_neg h, if_pos h24]]

theorem write_u32_minimal (v : Nat) (h32 : v < 2 ^ 32) :
    write_u32 v =
      write_tiny_atom_header .UInt (minUnsignedWidth v - 1) ++
        leBytes (minUnsignedWidth v) v := by
  unfold write_u32
  split_ifs with h
  · exact write_u24_minimal v h
  · rw [show minUnsignedWidth v = 4 by
      unfold minUnsignedWidth
      rw [if_neg (by omega), if_neg (by omega), if_neg h, if_pos h32]]

theorem write_u48_minimal (v : Nat) (h48 : v < 2 ^ 48) :
    write_u48 v =
      write_tiny_atom_header .UInt (minUnsignedWidth v - 1) ++
        leBytes (minUnsignedWidth v) v := by
  unfold write_u48
  split_ifs with h
  · exact write_u32_minimal v h
  · rw [show minUnsignedWidth v = 6 by
      unfold minUnsignedWidth
      rw [if_neg (by omega), if_neg (by omega), if_neg (by omega), if_neg h,
        if_pos h48]]

theorem write_u64_minimal (v : Nat) (h64 : v < 2 ^ 64) :
    write_u64 v =
      write_tiny_atom_header .UInt (minUnsignedWidth v - 1) ++
        leBytes (minUnsignedWidth v) v := by
  unfold write_u64
  split_ifs with h
  · exact write_u48_minimal v h
  · rw [show minUnsignedWidth v = 8 by
      unfold minUnsignedWidth
      rw [if_neg (by omega), if_neg (by omega), if_neg (by omega),
        if_neg (by omega), if_neg h, if_pos h64]]

theorem write_u128_minimal (v : Nat) (h128 : v < 2 ^ 128) :
    write_u128 v =
      write_tiny_atom_header .UInt (minUnsignedWidth v - 1) ++
        leBytes (minUnsignedWidth v) v := by
  unfold write_u128
  split_ifs with h
  · exact write_u64_minimal v h
  · rw [show minUnsignedWidth v = 16 by
      unfold minUnsignedWidth
      rw [if_neg (by omega), if_neg (by omega), if_neg (by omega),
        if_neg (by omega), if_neg (by omega), if_neg h]]

theorem minSignedWidth_bounds (v : Int) :
    1 ≤ minSignedWidth v ∧ minSignedWidth v ≤ 16 := by
  unfold minSignedWidth; split_ifs <;> omega

theorem minUnsignedWidth_bounds (v : Nat) :
    1 ≤ minUnsignedWidth v ∧ minUnsignedWidth v ≤ 16 := by
  unfold minUnsignedWidth; split_ifs <;> omega

/-- C3: every integer writer emits a one-byte atom header of the value's
own signedness kind carrying `width - 1`, followed by exactly
`minSignedWidth`/`minUnsignedWidth` payload bytes — the smallest supported
width (`{1,2,3,4,6,8,16}`) holding the value; hence the encoded size is
that width plus one, a signed writer always emits `Kind::Int`, and e.g.
`2^16` encodes to 4 bytes and `2^64 - 1` to 9 bytes. -/
theorem pot_c3_theorem (v : Int) (u : Nat) (hlo : -(2 ^ 127) ≤ v)
    (hhi : v < 2 ^ 127) (hu : u < 2 ^ 128) :
    (-(2 ^ 7) ≤ v ∧ v < 2 ^ 7 →
      write_i8 v = write_tiny_atom_header .Int (minSignedWidth v - 1) ++
        intLeBytes (minSignedWidth v) v) ∧
    (-(2 ^ 15) ≤ v ∧ v < 2 ^ 15 →
      write_i16 v = write_tiny_atom_header .Int (minSignedWidth v - 1) ++
        intLeBytes (minSignedWidth v) v) ∧
    (-(2 ^ 23) ≤ v ∧ v < 2 ^ 23 →
      write_i24 v = write_tiny_atom_header .Int (minSignedWidth v - 1) ++
        intLeBytes (minSignedWidth v) v) ∧
    (-(2 ^ 31) ≤ v ∧ v < 2 ^ 31 →
      write_i32 v = write_tiny_atom_header .Int (minSignedWidth v - 1) ++
        intLeBytes (minSignedWidth v) v) ∧
    (-(2 ^ 47) ≤ v ∧ v < 2 ^ 47 →
      write_i48 v = write_tiny_atom_header .Int (minSignedWidth v - 1) ++
        intLeBytes (minSignedWidth v) v) ∧
    (-(2 ^ 63) ≤ v ∧ v < 2 ^ 63 →
      write_i64 v = write_tiny_atom_header .Int (minSignedWidth v - 1) ++
        intLeBytes (minSignedWidth v) v) ∧
    (write_i128 v = write_tiny_atom_header .Int (minSignedWidth v - 1) ++
      intLeBytes (minSignedWidth v) v) ∧
    (write_i128 v).length = 1 + minSignedWidth v ∧
    (write_i128 v).headI = Kind.Int.toU8 * 32 + (minSignedWidth v - 1) ∧
    (u < 2 ^ 8 →
      write_u8 u = write_tiny_atom_header .UInt (minUnsignedWidth u - 1) ++
        leBytes (minUnsignedWidth u) u) ∧
    (u < 2 ^ 16 →
      write_u16 u = write_tiny_atom_header .UInt (minUnsignedWidth u - 1) ++
        leBytes (minUnsignedWidth u) u) ∧
    (u < 2 ^ 24 →
      write_u24 u = write_tiny_atom_header .UInt (minUnsignedWidth u - 1) ++
        leBytes (minUnsignedWidth u) u) ∧
    (u < 2 ^ 32 →
      write_u32 u = write_tiny_atom_header .UInt (minUnsignedWidth u - 1) ++
        leBytes (minUnsignedWidth u) u) ∧
    (u < 2 ^ 48 →
      write_u48 u = write_tiny_atom_header .UInt (minUnsignedWidth u - 1) ++
        leBytes (minUnsignedWidth u) u) ∧
    (u < 2 ^ 64 →
      write_u64 u = write_tiny_atom_header .UInt (minUnsignedWidth u - 1) ++
        leBytes (minUnsignedWidth u) u) ∧
    (write_u128 u = write_tiny_atom_header .UInt (minUnsignedWidth u - 1) ++
      leBytes (minUnsignedWidth u) u) ∧
    (write_u128 u).length = 1 + minUnsignedWidth u ∧
    (write_u128 u).headI = Kind.UInt.toU8 * 32 + (minUnsignedWidth u - 1) ∧
    (write_u32 (2 ^ 16)).length = 4 ∧
    (write_u64 (2 ^ 64 - 1)).length = 9 := by
  have hsw := minSignedWidth_bounds v
  have huw := minUnsignedWidth_bounds u
  refine ⟨fun h => write_i8_minimal v h.1 h.2, fun h => write_i16_minimal v h.1 h.2,
    fun h => write_i24_minimal v h.1 h.2, fun h => write_i32_minimal v h.1 h.2,
    fun h => write_i48_minimal v h.1 h.2, fun h => write_i64_minimal v h.1 h.2,
    write_i128_minimal v hlo hhi, ?_, ?_,
    fun h => write_u8_minimal u h, fun h => write_u16_minimal u h,
    fun h => write_u24_minimal u h, fun h => write_u32_minimal u h,
    fun h => write_u48_minimal u h, fun h => write_u64_minimal u h,
    write_u128_minimal u hu, ?_, ?_, by decide, by decide⟩
  · rw [write_i128_minimal v hlo hhi]
    simp [write_tiny_atom_header, intLeBytes_length]
    omega
  · rw [write_i128_minimal v hlo hhi]
    simp [write_tiny_atom_header]
    omega
  · rw [write_u128_minimal u hu]
    simp [write_tiny_atom_header, leBytes_length]
    omega
  · rw [write_u128_minimal u hu]
    simp [write_tiny_atom_header]
    omega

theorem pot_c3_theorem_witness :
    write_i128 (-200) = write_tiny_atom_header .Int (minSignedWidth (-200) - 1) ++
      intLeBytes (minSignedWidth (-200)) (-200) ∧
    (write_u128 65536).length = 1 + minUnsignedWidth 65536 ∧
    (write_u32 (2 ^ 16)).length = 4 ∧
    (write_u64 (2 ^ 64 - 1)).length = 9 := by
  have h := pot_c3_theorem (-200) 65536 (by norm_num) (by norm_num) (by norm_num)
  obtain ⟨-, -, -, -, -, -, h7, -, -, -, -, -, -, -, -, -, h17, -, h19, h20⟩ := h
  exact ⟨h7, h17, h19, h20⟩

/-! ## The `Integer` carrier and the typed atom reader -/

/-- Embeds `format.rs` `enum InnerInteger`; the newtype wrapper
`Integer(pub InnerInteger)` is flattened away.  Signed variants carry
`Int`, unsigned variants carry `Nat`; the machine range of each variant is
imposed by the reader and by well-formedness hypotheses. -/
inductive Integer where
  | I8 (v : Int)
  | I16 (v : Int)
  | I32 (v : Int)
  | I64 (v : Int)
  | I128 (v : Int)
  | U8 (v : Nat)
  | U16 (v : Nat)
  | U32 (v : Nat)
  | U64 (v : Nat)
  | U128 (v : Nat)
  deriving DecidableEq, Repr

/-- Embeds `Integer::is_zero`. -/
def Integer.is_zero : Integer → Bool
  | .I8 v | .I16 v | .I32 v | .I64 v | .I128 v => v = 0
  | .U8 v | .U16 v | .U32 v | .U64 v | .U128 v => v = 0

/-- Embeds `Integer::as_i8`. -/
def Integer.as_i8 : Integer → Except Error Int
  | .I8 v => .ok v
  | .U8 v => if v ≤ 127 then .ok v else .error .ImpreciseCastWouldLoseData
  | _ => .error .ImpreciseCastWouldLoseData

/-- Embeds `Integer::as_u8`. -/
def Integer.as_u8 : Integer → Except Error Nat
  | .U8 v => .ok v
  | .I8 v => if 0 ≤ v then .ok v.toNat else .error .ImpreciseCastWouldLoseData
  | _ => .error .ImpreciseCastWouldLoseData

/-- Embeds `Integer::as_i16`. -/
def Integer.as_i16 : Integer → Except Error Int
  | .I8 v => .ok v
  | .U8 v => .ok v
  | .I16 v => .ok v
  | .U16 v => if v ≤ 32767 then .ok v else .error .ImpreciseCastWouldLoseData
  | _ => .error .ImpreciseCastWouldLoseData

/-- Embeds `Integer::as_u16`. -/
def Integer.as_u16 : Integer → Except Error Nat
  | .I8 v => if 0 ≤ v then .ok v.toNat else .error .ImpreciseCastWouldLoseData
  | .U8 v => .ok v
  | .U16 v => .ok v
  | .I16 v => if 0 ≤ v then .ok v.toNat else .error .ImpreciseCastWouldLoseData
  | _ => .error .ImpreciseCastWouldLoseData

/-- Embeds `Integer::as_i32`. -/
def Integer.as_i32 : Integer → Except Error Int
  | .I8 v => .ok v
  | .U8 v => .ok v
  | .I16 v => .ok v
  | .U16 v => .ok v
  | .I32 v => .ok v
  | .U32 v => if v ≤ 2147483647 then .ok v else .error .ImpreciseCastWouldLoseData
  | _ => .error .ImpreciseCastWouldLoseData

/-- Embeds `Integer::as_u32`. -/
def Integer.as_u32 : Integer → Except Error Nat
  | .I8 v => if 0 ≤ v then .ok v.toNat else .error .ImpreciseCastWouldLoseData
  | .U8 v => .ok v
  | .I16 v => if 0 ≤ v then .ok v.toNat else .error .ImpreciseCastWouldLoseData
  | .U16 v => .ok v
  | .U32 v => .ok v
  | .I32 v => if 0 ≤ v then .ok v.toNat else .error .ImpreciseCastWouldLoseData
  | _ => .error .ImpreciseCastWouldLoseData

/-- Embeds `Integer::as_i64`. -/
def Integer.as_i64 : Integer → Except Error Int
  | .I8 v => .ok v
  | .U8 v => .ok v
  | .I16 v => .ok v
  | .U16 v => .ok v
  | .I32 v => .ok v
  | .U32 v => .ok v
  | .I64 v => .ok v
  | .U64 v =>
    if v ≤ 9223372036854775807 then .ok v else .error .ImpreciseCastWouldLoseData
  | _ => .error .ImpreciseCastWouldLoseData

/-- Embeds `Integer::as_i128`. -/
def Integer.as_i128 : Integer → Except Error Int
  | .I8 v => .ok v
  | .U8 v => .ok v
  | .I16 v => .ok v
  | .U16 v => .ok v
  | .I32 v => .ok v
  | .U32 v => .ok v
  | .I64 v => .ok v
  | .U64 v => .ok v
  | .I128 v => .ok v
  | .U128 v =>
    if v ≤ 2 ^ 127 - 1 then .ok v else .error .ImpreciseCastWouldLoseData

/-- Embeds `Integer::as_u64`. -/
def Integer.as_u64 : Integer → Except Error Nat
  | .I8 v => if 0 ≤ v then .ok v.toNat else .error .ImpreciseCastWouldLoseData
  | .U8 v => .ok v
  | .I16 v => if 0 ≤ v then .ok v.toNat else .error .ImpreciseCastWouldLoseData
  | .U16 v => .ok v
  | .U32 v => .ok v
  | .I32 v => if 0 ≤ v then .ok v.toNat else .error .ImpreciseCastWouldLoseData
  | .U64 v => .ok v
  | .I64 v => if 0 ≤ v then .ok v.toNat else .error .ImpreciseCastWouldLoseData
  | _ => .error .ImpreciseCastWouldLoseData

/-- Embeds `Integer::as_u128`. -/
def Integer.as_u128 : Integer → Except Error Nat
  | .I8 v => if 0 ≤ v then .ok v.toNat else .error .ImpreciseCastWouldLoseData
  | .U8 v => .ok v
  | .I16 v => if 0 ≤ v then .ok v.toNat else .error .ImpreciseCastWouldLoseData
  | .U16 v => .ok v
  | .U32 v => .ok v
  | .I32 v => if 0 ≤ v then .ok v.toNat else .error .ImpreciseCastWouldLoseData
  | .U64 v => .ok v
  | .I64 v => if 0 ≤ v then .ok v.toNat else .error .ImpreciseCastWouldLoseData
  | .U128 v => .ok v
  | .I128 v => if 0 ≤ v then .ok v.toNat else .error .ImpreciseCastWouldLoseData

/-- Embeds `Integer::write_to`: dispatches to the narrowing writer of the
stored variant. -/
def Integer.write_to : Integer → List Nat
  | .I8 v => write_i8 v
  | .I16 v => write_i16 v
  | .I32 v => write_i32 v
  | .I64 v => write_i64 v
  | .I128 v => write_i128 v
  | .U8 v => write_u8 v
  | .U16 v => write_u16 v
  | .U32 v => write_u32 v
  | .U64 v => write_u64 v
  | .U128 v => write_u128 v

/-- Embeds `impl From<u8> for Integer`. -/
def Integer.fromU8 (v : Nat) : Integer := .U8 v

/-- Embeds `impl From<u16> for Integer`
(`impl_from_unsigned_integer!(u16, u8, U16)`): narrows through the
smaller type when `try_from` succeeds. -/
def Integer.fromU16 (v : Nat) : Integer :=
  if v < 2 ^ 8 then Integer.fromU8 v else .U16 v

/-- Embeds `impl From<u32> for Integer`. -/
def Integer.fromU32 (v : Nat) : Integer :=
  if v < 2 ^ 16 then Integer.fromU16 v else .U32 v

/-- Embeds `impl From<u64> for Integer`. -/
def Integer.fromU64 (v : Nat) : Integer :=
  if v < 2 ^ 32 then Integer.fromU32 v else .U64 v

/-- Embeds `impl From<u128> for Integer`. -/
def Integer.fromU128 (v : Nat) : Integer :=
  if v < 2 ^ 64 then Integer.fromU64 v else .U128 v

/-- Embeds `impl From<i8> for Integer` (no unsigned fallback). -/
def Integer.fromI8 (v : Int) : Integer := .I8 v

/-- Embeds `impl From<i16> for Integer`
(`impl_from_unsigned_integer!(i16, i8, u8, I16)`): tries the narrower
signed type, then the narrower UNSIGNED type, before keeping the
variant. -/
def Integer.fromI16 (v : Int) : Integer :=
  if -(2 ^ 7) ≤ v ∧ v < 2 ^ 7 then Integer.fromI8 v
  else if 0 ≤ v ∧ v < 2 ^ 8 then Integer.fromU8 v.toNat
  else .I16 v

/-- Embeds `impl From<i32> for Integer`. -/
def Integer.fromI32 (v : Int) : Integer :=
  if -(2 ^ 15) ≤ v ∧ v < 2 ^ 15 then Integer.fromI16 v
  else if 0 ≤ v ∧ v < 2 ^ 16 then Integer.fromU16 v.toNat
  else .I32 v

/-- Embeds `impl From<i64> for Integer`. -/
def Integer.fromI64 (v : Int) : Integer :=
  if -(2 ^ 31) ≤ v ∧ v < 2 ^ 31 then Integer.fromI32 v
  else if 0 ≤ v ∧ v < 2 ^ 32 then Integer.fromU32 v.toNat
  else .I64 v

/-- Embeds `impl From<i128> for Integer`. -/
def Integer.fromI128 (v : Int) : Integer :=
  if -(2 ^ 63) ≤ v ∧ v < 2 ^ 63 then Integer.fromI64 v
  else if 0 ≤ v ∧ v < 2 ^ 64 then Integer.fromU64 v.toNat
  else .I128 v

/-- The integer path of `deserialize_any` with `ValueVisitor`: the
`Kind::Int`/`Kind::UInt` dispatch calls `visit_iN`/`visit_uN` on the
carried machine value, and each `ValueVisitor::visit_*` rebuilds the
`Integer` with `Integer::from` — renormalizing e.g. a non-negative
`I16` into `U8`/`U16`. -/
def visit_integer : Integer → Integer
  | .I8 v => Integer.fromI8 v
  | .I16 v => Integer.fromI16 v
  | .I32 v => Integer.fromI32 v
  | .I64 v => Integer.fromI64 v
  | .I128 v => Integer.fromI128 v
  | .U8 v => Integer.fromU8 v
  | .U16 v => Integer.fromU16 v
  | .U32 v => Integer.fromU32 v
  | .U64 v => Integer.fromU64 v
  | .U128 v => Integer.fromU128 v

/-- Reads exactly `n` bytes (`Reader::buffered_read_bytes` /
`read_exact`); `Eof` when the input is shorter. -/
def readExact : Nat → List Nat → Except Error (List Nat × List Nat)
  | 0, input => .ok ([], input)
  | _ + 1, [] => .error .Eof
  | n + 1, b :: rest =>
    match readExact n rest with
    | .error e => .error e
    | .ok (bytes, rest) => .ok (b :: bytes, rest)

/-- The value of a little-endian byte list. -/
def leValue : List Nat → Nat
  | [] => 0
  | b :: rest => b + 256 * leValue rest

/-- Reads an `n`-byte little-endian unsigned value. -/
def readLeNat (n : Nat) (input : List Nat) : Except Error (Nat × List Nat) :=
  match readExact n input with
  | .error e => .error e
  | .ok (bytes, rest) => .ok (leValue bytes, rest)

/-- Two's-complement reinterpretation of a `width`-byte unsigned value as
a signed one (`read_i8` / `read_i16` / `read_i24` / ...). -/
def signExtend (width m : Nat) : Int :=
  if m < 2 ^ (8 * width - 1) then (m : Int) else (m : Int) - 2 ^ (8 * width)

/-- Embeds `Integer::read_from`: accepts the supported widths
`{1,2,3,4,6,8,16}` of either signedness and returns the widest matching
in-memory carrier (3 widens to `I32`/`U32`, 6 to `I64`/`U64`). -/
def Integer.read_from (kind : Kind) (byte_len : Nat) (input : List Nat) :
    Except Error (Integer × List Nat) :=
  match kind with
  | .Int =>
    match byte_len with
    | 1 => (readLeNat 1 input).map fun (m, rest) => (.I8 (signExtend 1 m), rest)
    | 2 => (readLeNat 2 input).map fun (m, rest) => (.I16 (signExtend 2 m), rest)
    | 3 => (readLeNat 3 input).map fun (m, rest) => (.I32 (signExtend 3 m), rest)
    | 4 => (readLeNat 4 input).map fun (m, rest) => (.I32 (signExtend 4 m), rest)
    | 6 => (readLeNat 6 input).map fun (m, rest) => (.I64 (signExtend 6 m), rest)
    | 8 => (readLeNat 8 input).map fun (m, rest) => (.I64 (signExtend 8 m), rest)
    | 16 =>
      (readLeNat 16 input).map fun (m, rest) => (.I128 (signExtend 16 m), rest)
    | count => .error (.UnsupportedByteCount kind count)
  | .UInt =>
    match byte_len with
    | 1 => (readLeNat 1 input).map fun (m, rest) => (.U8 m, rest)
    | 2 => (readLeNat 2 input).map fun (m, rest) => (.U16 m, rest)
    | 3 => (readLeNat 3 input).map fun (m, rest) => (.U32 m, rest)
    | 4 => (readLeNat 4 input).map fun (m, rest) => (.U32 m, rest)
    | 6 => (readLeNat 6 input).map fun (m, rest) => (.U64 m, rest)
    | 8 => (readLeNat 8 input).map fun (m, rest) => (.U64 m, rest)
    | 16 => (readLeNat 16 input).map fun (m, rest) => (.U128 m, rest)
    | count => .error (.UnsupportedByteCount kind count)
  | _ => .error (.UnexpectedKind kind .Int)

/-- `⌊log₂ n⌋` by structural descent on a bit budget (agrees with the
mathematical value whenever `1 ≤ n < 2 ^ fuel`). -/
def log2floor (fuel : Nat) (n : Nat) : Nat :=
  match fuel with
  | 0 => 0
  | fuel + 1 => if n ≤ 1 then 0 else log2floor fuel (n / 2) + 1

/-- Embeds `half`'s `f16::to_f32` at the bit level: sign, rebiased
exponent and widened mantissa, with subnormal normalization.  The
widening is a lossless injection on bit patterns. -/
def f16ToF32Bits (h : Nat) : Nat :=
  let s := h / 2 ^ 15 % 2
  let e := h / 2 ^ 10 % 32
  let m := h % 2 ^ 10
  if e = 0 then
    if m = 0 then s * 2 ^ 31
    else
      s * 2 ^ 31 + (103 + log2floor 52 m) * 2 ^ 23 +
        (m - 2 ^ log2floor 52 m) * 2 ^ (23 - log2floor 52 m)
  else if e = 31 then s * 2 ^ 31 + 255 * 2 ^ 23 + m * 2 ^ 13
  else s * 2 ^ 31 + (e + 112) * 2 ^ 23 + m * 2 ^ 13

/-- Embeds `format.rs` `InnerFloat` (the payload of `Float`); IEEE values
are carried as raw bit patterns, which is all the non-arithmetic code
paths inspect. -/
inductive Float where
  | F64 (bits : Nat)
  | F32 (bits : Nat)
  deriving DecidableEq, Repr

/-- Embeds `Float::read_from`: accepts widths 2, 4 and 8; the two-byte
IEEE half form widens to `F32` on read. -/
def Float.read_from (kind : Kind) (byte_len : Nat) (input : List Nat) :
    Except Error (Float × List Nat) :=
  if kind = .Float then
    match byte_len with
    | 2 => (readLeNat 2 input).map fun (m, rest) => (.F32 (f16ToF32Bits m), rest)
    | 4 => (readLeNat 4 input).map fun (m, rest) => (.F32 m, rest)
    | 8 => (readLeNat 8 input).map fun (m, rest) => (.F64 m, rest)
    | count => .error (.UnsupportedByteCount .Float count)
  else .error (.UnexpectedKind kind .Float)

/-- Embeds `format.rs` `enum Nucleus`.  `Bytes` carries the payload bytes
(the `BufferedBytes` borrow/scratch distinction is a memory-ownership
concern erased by the embedding). -/
inductive Nucleus where
  | Boolean (b : Bool)
  | Integer (i : Integer)
  | Float (f : Float)
  | Bytes (b : List Nat)
  | Unit
  | Named
  | DynamicMap
  | DynamicEnd
  deriving DecidableEq, Repr

/-- Embeds `format.rs` `struct Atom` (without the borrow lifetime). -/
structure Atom where
  kind : Kind
  arg : Nat
  nucleus : Option Nucleus
  deriving DecidableEq, Repr

/-- Embeds `in_memory_int_size`: 3- and 6-byte compaction forms occupy 4
and 8 bytes in memory. -/
def in_memory_int_size (encoded_length : Nat) : Nat :=
  match encoded_length with
  | 3 => 4
  | 6 => 8
  | other => other

/-- Embeds `update_budget`: `checked_sub`, so the new budget is returned
exactly when the deduction does not underflow; otherwise
`TooManyBytesRead`. -/
def update_budget (budget read_amount : Nat) : Except Error Nat :=
  if read_amount ≤ budget then .ok (budget - read_amount)
  else .error .TooManyBytesRead

/-- Embeds `format.rs` `read_atom`: reads a header, then the payload of
the kind, deducting from the allocation budget on every variable-size
read. -/
def read_atom (input : List Nat) (remaining_budget : Nat) :
    Except Error (Atom × Nat × List Nat) :=
  match read_atom_header input with
  | .error e => .error e
  | .ok (kind, arg, rest) =>
    match kind with
    | .Sequence | .Map | .Symbol =>
      .ok (⟨kind, arg, none⟩, remaining_budget, rest)
    | .Special =>
      match Special.try_from arg with
      | .error e => .error e
      | .ok s =>
        .ok (⟨kind, arg,
          match s with
          | .None => none
          | .Unit => some .Unit
          | .False => some (.Boolean false)
          | .True => some (.Boolean true)
          | .Named => some .Named
          | .DynamicMap => some .DynamicMap
          | .DynamicEnd => some .DynamicEnd⟩, remaining_budget, rest)
    | .Int | .UInt =>
      -- `let bytes = arg as usize + 1;`: `usize` addition, wrapping at
      -- `2^64` in release builds (`arg = u64::MAX` yields width `0`).
      match update_budget remaining_budget
          (in_memory_int_size ((arg + 1) % 2 ^ 64)) with
      | .error e => .error e
      | .ok budget =>
        match Integer.read_from kind ((arg + 1) % 2 ^ 64) rest with
        | .error e => .error e
        | .ok (i, rest) => .ok (⟨kind, arg, some (.Integer i)⟩, budget, rest)
    | .Float =>
      match update_budget remaining_budget
          (in_memory_int_size ((arg + 1) % 2 ^ 64)) with
      | .error e => .error e
      | .ok budget =>
        match Float.read_from kind ((arg + 1) % 2 ^ 64) rest with
        | .error e => .error e
        | .ok (f, rest) => .ok (⟨kind, arg, some (.Float f)⟩, budget, rest)
    | .Bytes =>
      match update_budget remaining_budget arg with
      | .error e => .error e
      | .ok budget =>
        match readExact arg rest with
        | .error e => .error e
        | .ok (bytes, rest) => .ok (⟨kind, arg, some (.Bytes bytes)⟩, budget, rest)

theorem readExact_append (payload : List Nat) :
    ∀ rest, readExact payload.length (payload ++ rest) = .ok (payload, rest) := by
  induction payload with
  | nil => intro rest; rfl
  | cons b bs ih =>
    intro rest
    simp only [List.length_cons, List.cons_append, readExact, List.append_eq,
      ih rest]

/-- C8: `read_atom` deducts from the allocation budget on every
variable-size read — the announced length for `Bytes`, the in-memory size
(3 ↦ 4, 6 ↦ 8) for integer and float atoms — failing with
`TooManyBytesRead` exactly when the deduction would underflow; kinds
without a variable-size payload leave the budget unchanged. -/
theorem pot_c8_theorem (arg budget : Nat) (payload rest : List Nat)
    (h64 : arg < 2 ^ 64) :
    (payload.length = arg →
      (arg ≤ budget →
        read_atom (write_atom_header .Bytes arg ++ payload ++ rest) budget =
          .ok (⟨.Bytes, arg, some (.Bytes payload)⟩, budget - arg, rest)) ∧
      (budget < arg →
        read_atom (write_atom_header .Bytes arg ++ payload ++ rest) budget =
          .error .TooManyBytesRead)) ∧
    (∀ k : Kind, k = .Int ∨ k = .UInt →
      (budget < in_memory_int_size ((arg + 1) % 2 ^ 64) →
        read_atom (write_atom_header k arg ++ payload ++ rest) budget =
          .error .TooManyBytesRead) ∧
      ∀ i rest', in_memory_int_size ((arg + 1) % 2 ^ 64) ≤ budget →
        Integer.read_from k ((arg + 1) % 2 ^ 64) (payload ++ rest) =
          .ok (i, rest') →
        read_atom (write_atom_header k arg ++ payload ++ rest) budget =
          .ok (⟨k, arg, some (.Integer i)⟩,
            budget - in_memory_int_size ((arg + 1) % 2 ^ 64), rest')) ∧
    ((budget < in_memory_int_size ((arg + 1) % 2 ^ 64) →
        read_atom (write_atom_header .Float arg ++ payload ++ rest) budget =
          .error .TooManyBytesRead) ∧
      ∀ f rest', in_memory_int_size ((arg + 1) % 2 ^ 64) ≤ budget →
        Float.read_from .Float ((arg + 1) % 2 ^ 64) (payload ++ rest) =
          .ok (f, rest') →
        read_atom (write_atom_header .Float arg ++ payload ++ rest) budget =
          .ok (⟨.Float, arg, some (.Float f)⟩,
            budget - in_memory_int_size ((arg + 1) % 2 ^ 64), rest')) ∧
    (∀ (k : Kind) (a : Atom) (budget' : Nat) (rest' : List Nat),
      k = .Sequence ∨ k = .Map ∨ k = .Symbol ∨ k = .Special →
      read_atom (write_atom_header k arg ++ payload ++ rest) budget =
        .ok (a, budget', rest') →
      budget' = budget) ∧
    (arg = 2 ^ 64 - 1 →
      read_atom (write_atom_header .Int arg ++ payload ++ rest) budget =
        .error (.UnsupportedByteCount .Int 0)) := by
  have hdr : ∀ k : Kind,
      read_atom_header (write_atom_header k arg ++ payload ++ rest) =
        .ok (k, arg, payload ++ rest) := by
    intro k
    rw [List.append_assoc]
    exact read_write_atom_header k arg h64 _
  refine ⟨?_, ?_, ?_, ?_, ?_⟩
  · intro hlen
    constructor
    · intro hle
      unfold read_atom
      rw [hdr .Bytes]
      dsimp only
      unfold update_budget
      rw [if_pos hle, ← hlen, readExact_append]
    · intro hlt
      unfold read_atom
      rw [hdr .Bytes]
      dsimp only
      unfold update_budget
      rw [if_neg (by omega)]
  · rintro k (rfl | rfl) <;>
      · constructor
        · intro hlt
          unfold read_atom
          rw [hdr _]
          dsimp only
          unfold update_budget
          rw [if_neg (by omega)]
        · intro i rest' hle hread
          unfold read_atom
          rw [hdr _]
          dsimp only
          unfold update_budget
          rw [if_pos hle]
          dsimp only
          rw [hread]
  · constructor
    · intro hlt
      unfold read_atom
      rw [hdr .Float]
      dsimp only
      unfold update_budget
      rw [if_neg (by omega)]
    · intro f rest' hle hread
      unfold read_atom
      rw [hdr .Float]
      dsimp only
      unfold update_budget
      rw [if_pos hle]
      dsimp only
      rw [hread]
  · rintro k a budget' rest' (rfl | rfl | rfl | rfl) hread <;>
      rw [read_atom, hdr _] at hread
    · cases hread; rfl
    · cases hread; rfl
    · cases hread; rfl
    · dsimp only at hread
      split at hread
      · cases hread
      · cases hread; rfl
  · rintro rfl
    unfold read_atom
    rw [hdr .Int]
    dsimp only
    rw [show (2 ^ 64 - 1 + 1) % 2 ^ 64 = 0 by norm_num]
    unfold update_budget
    rw [if_pos (show in_memory_int_size 0 ≤ budget from Nat.zero_le _)]
    rfl

theorem pot_c8_theorem_witness :
    read_atom (write_atom_header .Bytes 3 ++ [65, 66, 67] ++ [9]) 5 =
      .ok (⟨.Bytes, 3, some (.Bytes [65, 66, 67])⟩, 2, [9]) ∧
    read_atom (write_atom_header .Bytes 3 ++ [65, 66, 67] ++ [9]) 2 =
      .error .TooManyBytesRead ∧
    read_atom (write_atom_header .UInt 2 ++ [1, 0, 0] ++ [9]) 3 =
      .error .TooManyBytesRead ∧
    read_atom (write_atom_header .Int (2 ^ 64 - 1) ++ [] ++ []) 5 =
      .error (.UnsupportedByteCount .Int 0) := by
  refine ⟨((pot_c8_theorem 3 5 [65, 66, 67] [9] (by norm_num)).1 rfl).1
      (by norm_num),
    ((pot_c8_theorem 3 2 [65, 66, 67] [9] (by norm_num)).1 rfl).2 (by norm_num),
    ((pot_c8_theorem 2 3 [1, 0, 0] [9] (by norm_num)).2.1 .UInt (Or.inr rfl)).1
      (by decide),
    (pot_c8_theorem (2 ^ 64 - 1) 5 [] [] (by norm_num)).2.2.2.2 rfl⟩

/-! ## UTF-8 (`core::str::from_utf8` validation and `str` contents)

Strings are embedded as lists of Unicode scalar values; the wire carries
their UTF-8 bytes.  `utf8Decode` follows the standard table used by
`core`'s validator: lead bytes `C2..DF`, `E0..EF` and `F0..F4` with the
`E0`/`ED`/`F0`/`F4` continuation restrictions that exclude overlong
forms, surrogates and values above `0x10FFFF`. -/

/-- A Unicode scalar value: below the surrogate range or between it and
`0x110000`. -/
def validScalar (c : Nat) : Prop := c < 0xD800 ∨ (0xE000 ≤ c ∧ c < 0x110000)

instance (c : Nat) : Decidable (validScalar c) := by
  unfold validScalar; infer_instance

/-- UTF-8 bytes of one scalar value. -/
def utf8EncodeChar (c : Nat) : List Nat :=
  if c < 0x80 then [c]
  else if c < 0x800 then [0xC0 + c / 64, 0x80 + c % 64]
  else if c < 0x10000 then
    [0xE0 + c / 4096, 0x80 + c / 64 % 64, 0x80 + c % 64]
  else
    [0xF0 + c / 262144, 0x80 + c / 4096 % 64, 0x80 + c / 64 % 64,
      0x80 + c % 64]

/-- UTF-8 bytes of a scalar string. -/
def utf8Encode : List Nat → List Nat
  | [] => []
  | c :: rest => utf8EncodeChar c ++ utf8Encode rest

/-- The byte-at-a-time UTF-8 validation loop (the DFA shape used by
`core`'s validator): `pending` continuation bytes are still expected for
the scalar accumulated in `acc`, and the next byte must lie in
`[lo, hi)` — the `E0`/`ED`/`F0`/`F4` lead bytes restrict their first
continuation byte, excluding overlong forms, surrogates and values above
`0x10FFFF`. -/
def utf8DecodeLoop : List Nat → Nat → Nat → Nat → Nat → Option (List Nat)
  | [], pending, _, _, _ => if pending = 0 then some [] else none
  | b :: rest, 0, _, _, _ =>
    if b < 0x80 then (utf8DecodeLoop rest 0 0 0 0).map (fun s => b :: s)
    else if b < 0xC2 then none
    else if b < 0xE0 then utf8DecodeLoop rest 1 (b % 32) 0x80 0xC0
    else if b < 0xF0 then
      utf8DecodeLoop rest 2 (b % 16) (if b = 0xE0 then 0xA0 else 0x80)
        (if b = 0xED then 0xA0 else 0xC0)
    else if b < 0xF5 then
      utf8DecodeLoop rest 3 (b % 8) (if b = 0xF0 then 0x90 else 0x80)
        (if b = 0xF4 then 0x90 else 0xC0)
    else none
  | b :: rest, 1, acc, lo, hi =>
    if lo ≤ b ∧ b < hi then
      (utf8DecodeLoop rest 0 0 0 0).map (fun s => (acc * 64 + b % 64) :: s)
    else none
  | b :: rest, pending + 2, acc, lo, hi =>
    if lo ≤ b ∧ b < hi then
      utf8DecodeLoop rest (pending + 1) (acc * 64 + b % 64) 0x80 0xC0
    else none

/-- UTF-8 validation and decoding of a whole byte list; `none` exactly on
the inputs `core::str::from_utf8` rejects. -/
def utf8Decode (input : List Nat) : Option (List Nat) :=
  utf8DecodeLoop input 0 0 0 0

theorem utf8Decode_encodeChar (c : Nat) (h : validScalar c) (tail : List Nat) :
    utf8Decode (utf8EncodeChar c ++ tail) =
      (utf8Decode tail).map (fun s => c :: s) := by
  unfold validScalar at h
  unfold utf8Decode
  by_cases h1 : c < 0x80
  · simp only [utf8EncodeChar, if_pos h1, List.cons_append, List.nil_append]
    rw [utf8DecodeLoop, if_pos h1]
  · by_cases h2 : c < 0x800
    · simp only [utf8EncodeChar, if_neg h1, if_pos h2, List.cons_append,
        List.nil_append]
      rw [utf8DecodeLoop, if_neg (by omega), if_neg (by omega),
        if_pos (by omega), utf8DecodeLoop, if_pos (by omega)]
      rw [show (0xC0 + c / 64) % 32 * 64 + (0x80 + c % 64) % 64 = c by omega]
    · by_cases h3 : c < 0x10000
      · simp only [utf8EncodeChar, if_neg h1, if_neg h2, if_pos h3,
          List.cons_append, List.nil_append]
        rw [utf8DecodeLoop, if_neg (by omega), if_neg (by omega),
          if_neg (by omega), if_pos (by omega),
          utf8DecodeLoop, if_pos (by split_ifs <;> omega),
          utf8DecodeLoop, if_pos (by omega)]
        rw [show ((0xE0 + c / 4096) % 16 * 64 + (0x80 + c / 64 % 64) % 64) *
            64 + (0x80 + c % 64) % 64 = c by omega]
      · simp only [utf8EncodeChar, if_neg h1, if_neg h2, if_neg h3,
          List.cons_append, List.nil_append]
        rw [utf8DecodeLoop, if_neg (by omega), if_neg (by omega),
          if_neg (by omega), if_neg (by omega), if_pos (by omega),
          utf8DecodeLoop, if_pos (by split_ifs <;> omega),
          utf8DecodeLoop, if_pos (by omega),
          utf8DecodeLoop, if_pos (by omega)]
        rw [show (((0xF0 + c / 262144) % 8 * 64 +
            (0x80 + c / 4096 % 64) % 64) * 64 +
            (0x80 + c / 64 % 64) % 64) * 64 + (0x80 + c % 64) % 64 = c by
          omega]

theorem utf8Decode_encode (s : List Nat) (h : ∀ c ∈ s, validScalar c)
    (tail : List Nat) :
    utf8Decode (utf8Encode s ++ tail) =
      (utf8Decode tail).map (fun t => s ++ t) := by
  induction s with
  | nil =>
    simp only [utf8Encode, List.nil_append]
    cases utf8Decode tail <;> rfl
  | cons c cs ih =>
    simp only [utf8Encode, List.append_assoc]
    rw [utf8Decode_encodeChar c (h c (by simp)) _,
      ih (fun x hx => h x (by simp [hx]))]
    cases utf8Decode tail <;> rfl

theorem utf8Decode_encode_self (s : List Nat) (h : ∀ c ∈ s, validScalar c) :
    utf8Decode (utf8Encode s) = some s := by
  have h2 := utf8Decode_encode s h []
  rw [show utf8Decode [] = some [] from rfl] at h2
  simpa using h2

/-! ## Format-level writers used by the serializer -/

/-- Embeds `write_special`. -/
def write_special (special : Special) : List Nat :=
  write_atom_header .Special special.toU64

/-- Embeds `write_none`. -/
def write_none : List Nat := write_special .None

/-- Embeds `write_unit`. -/
def write_unit : List Nat := write_special .Unit

/-- Embeds `write_named`. -/
def write_named : List Nat := write_special .Named

/-- Embeds `write_bool`. -/
def write_bool (boolean : Bool) : List Nat :=
  write_special (if boolean then .True else .False)

/-- Embeds `write_bytes`. -/
def write_bytes (value : List Nat) : List Nat :=
  write_atom_header .Bytes value.length ++ value

/-- Embeds `write_str` (strings are scalar lists; the wire carries their
UTF-8 bytes). -/
def write_str (value : List Nat) : List Nat :=
  write_bytes (utf8Encode value)

/-! ## The `Value` tree (`value.rs`)

The `Float` variant is omitted: float values and their narrowing are IEEE
arithmetic, outside the embedding (claim C4).  Strings are lists of
Unicode scalar values; the `Cow` borrow/own distinction is erased. -/

/-- Embeds `value.rs` `enum Value`, minus the `Float` variant. -/
inductive Value where
  | None
  | Unit
  | Bool (b : Bool)
  | Integer (i : Integer)
  | Bytes (b : List Nat)
  | String (s : List Nat)
  | Sequence (xs : List Value)
  | Mappings (kvs : List (Value × Value))

mutual

/-- Embeds `Serialize for Value` driving `ser.rs` `Serializer` into the
`format.rs` writers (headers and payloads): the whole body of a payload
produced by `Config::serialize` after the 4-byte Pot header. -/
def encodeValue : Value → List Nat
  | .None => write_none
  | .Unit => write_unit
  | .Bool b => write_bool b
  | .Integer i => i.write_to
  | .Bytes b => write_bytes b
  | .String s => write_str s
  | .Sequence xs => write_atom_header .Sequence xs.length ++ encodeList xs
  | .Mappings kvs => write_atom_header .Map kvs.length ++ encodePairs kvs

/-- Sequence elements, in order (`serialize_seq` / `serialize_element`). -/
def encodeList : List Value → List Nat
  | [] => []
  | x :: xs => encodeValue x ++ encodeList xs

/-- Map entries, alternating key/value (`serialize_map` /
`serialize_entry`). -/
def encodePairs : List (Value × Value) → List Nat
  | [] => []
  | (k, v) :: kvs => encodeValue k ++ encodeValue v ++ encodePairs kvs

end

mutual

/-- Embeds `de.rs` `deserialize_any` with `value.rs` `ValueVisitor`: the
schema-less decoding of one value from the atom stream.  The first
argument is recursion fuel (a model artifact: any fuel at least the
nesting cost works; real executions are bounded by the input length).
Two code paths are outside the modelled fragment and are marked with
dedicated errors: `Kind::Float` atoms (IEEE values cannot enter the
modelled `Value`) and `Kind::Symbol` atoms (never produced when encoding
a `Value`, whose maps serialize their keys as plain values). -/
def decodeValue : Nat → List Nat → Nat → Except Error (Value × Nat × List Nat)
  | 0, _, _ => .error .outOfFuel
  | fuel + 1, input, budget => do
    let (atom, budget, rest) ← read_atom input budget
    match atom.kind with
    | .Special =>
      match atom.nucleus with
      | some (.Boolean b) => .ok (.Bool b, budget, rest)
      | some .Unit => .ok (.Unit, budget, rest)
      | some .Named => do
        -- `visit_map(AtomList::new(self, Some(1)))`: exactly one entry
        let (k, budget, rest) ← decodeValue fuel rest budget
        let (v, budget, rest) ← decodeValue fuel rest budget
        .ok (.Mappings [(k, v)], budget, rest)
      | some .DynamicMap => do
        let (kvs, budget, rest) ← decodeDynPairs fuel rest budget
        .ok (.Mappings kvs, budget, rest)
      | some .DynamicEnd => .error .Message
      | none => .ok (.None, budget, rest)
      | _ => .error .Message  -- `unreachable!`: `read_atom` cannot yield these
    | .Int | .UInt =>
      -- `visit_iN`/`visit_uN` with `ValueVisitor`: `Integer::from`
      match atom.nucleus with
      | some (.Integer i) => .ok (.Integer (visit_integer i), budget, rest)
      | _ => .error .Message  -- `unreachable!`
    | .Float => .error .floatSemanticsOutsideModel
    | .Sequence => do
      let (xs, budget, rest) ← decodeList fuel atom.arg rest budget
      .ok (.Sequence xs, budget, rest)
    | .Map => do
      let (kvs, budget, rest) ← decodePairs fuel atom.arg rest budget
      .ok (.Mappings kvs, budget, rest)
    | .Symbol => .error .Message  -- outside the modelled fragment
    | .Bytes =>
      match atom.nucleus with
      | some (.Bytes bytes) =>
        -- `str::from_utf8(bytes)`: UTF-8 payloads become strings
        match utf8Decode bytes with
        | some s => .ok (.String s, budget, rest)
        | none => .ok (.Bytes bytes, budget, rest)
      | _ => .error .Message  -- `unreachable!`
  termination_by structural fuel _ _ => fuel

/-- `visit_seq` over an `AtomList` with a known count. -/
def decodeList : Nat → Nat → List Nat → Nat →
    Except Error (List Value × Nat × List Nat)
  | 0, 0, input, budget => .ok ([], budget, input)
  | 0, _ + 1, _, _ => .error .outOfFuel
  | _ + 1, 0, input, budget => .ok ([], budget, input)
  | fuel + 1, n + 1, input, budget => do
    let (v, budget, rest) ← decodeValue fuel input budget
    let (vs, budget, rest) ← decodeList fuel n rest budget
    .ok (v :: vs, budget, rest)
  termination_by structural fuel _ _ _ => fuel

/-- `visit_map` over an `AtomList` with a known count. -/
def decodePairs : Nat → Nat → List Nat → Nat →
    Except Error (List (Value × Value) × Nat × List Nat)
  | 0, 0, input, budget => .ok ([], budget, input)
  | 0, _ + 1, _, _ => .error .outOfFuel
  | _ + 1, 0, input, budget => .ok ([], budget, input)
  | fuel + 1, n + 1, input, budget => do
    let (k, budget, rest) ← decodeValue fuel input budget
    let (v, budget, rest) ← decodeValue fuel rest budget
    let (kvs, budget, rest) ← decodePairs fuel n rest budget
    .ok ((k, v) :: kvs, budget, rest)
  termination_by structural fuel _ _ _ => fuel

/-- `visit_map` over an `AtomList` with no count: entries until a
`Special(DynamicEnd)` atom.  `check_is_eof` peeks the next atom through
the FIFO; re-reading the same bytes with the same budget is equivalent to
consuming the queued atom. -/
def decodeDynPairs : Nat → List Nat → Nat →
    Except Error (List (Value × Value) × Nat × List Nat)
  | 0, _, _ => .error .outOfFuel
  | fuel + 1, input, budget => do
    let (atom, budget2, rest2) ← read_atom input budget
    if atom.kind = .Special ∧ atom.nucleus = some .DynamicEnd then
      .ok ([], budget2, rest2)
    else do
      let (k, budget, rest) ← decodeValue fuel input budget
      let (v, budget, rest) ← decodeValue fuel rest budget
      let (kvs, budget, rest) ← decodeDynPairs fuel rest budget
      .ok ((k, v) :: kvs, budget, rest)
  termination_by structural fuel _ _ => fuel

end

/-! ## Round-trip infrastructure -/

/-- An `Integer` carries the narrowest variant of its own signedness: the
value does not fit the next-narrower variant of the same signedness (and
lies in the variant's machine range).  This is the variant
`Integer::read_from` rebuilds from the value's minimal-width encoding
(before the `ValueVisitor` renormalization). -/
def narrowestVariant : Integer → Bool
  | .I8 v => decide (-(2 ^ 7) ≤ v ∧ v < 2 ^ 7)
  | .I16 v => decide ((-(2 ^ 15) ≤ v ∧ v < 2 ^ 15) ∧ ¬(-(2 ^ 7) ≤ v ∧ v < 2 ^ 7))
  | .I32 v =>
    decide ((-(2 ^ 31) ≤ v ∧ v < 2 ^ 31) ∧ ¬(-(2 ^ 15) ≤ v ∧ v < 2 ^ 15))
  | .I64 v =>
    decide ((-(2 ^ 63) ≤ v ∧ v < 2 ^ 63) ∧ ¬(-(2 ^ 31) ≤ v ∧ v < 2 ^ 31))
  | .I128 v =>
    decide ((-(2 ^ 127) ≤ v ∧ v < 2 ^ 127) ∧ ¬(-(2 ^ 63) ≤ v ∧ v < 2 ^ 63))
  | .U8 v => decide (v < 2 ^ 8)
  | .U16 v => decide (2 ^ 8 ≤ v ∧ v < 2 ^ 16)
  | .U32 v => decide (2 ^ 16 ≤ v ∧ v < 2 ^ 32)
  | .U64 v => decide (2 ^ 32 ≤ v ∧ v < 2 ^ 64)
  | .U128 v => decide (2 ^ 64 ≤ v ∧ v < 2 ^ 128)

/-- An `Integer` in the DECODER'S normal form — the fixpoint of the
read-then-renormalize pipeline (`Integer::read_from` followed by
`Integer::from` in `ValueVisitor`): unsigned variants hold the narrowest
unsigned value; signed variants only survive when the value is negative
(in the half-range the next-narrower signed variant misses) or too large
for the same-width unsigned fallback of `Integer::from`. -/
def wfInteger : Integer → Bool
  | .I8 v => decide (-(2 ^ 7) ≤ v ∧ v < 2 ^ 7)
  | .I16 v =>
    decide ((-(2 ^ 15) ≤ v ∧ v < -(2 ^ 7)) ∨ ((2 ^ 8 : Int) ≤ v ∧ v < 2 ^ 15))
  | .I32 v =>
    decide ((-(2 ^ 31) ≤ v ∧ v < -(2 ^ 15)) ∨ ((2 ^ 16 : Int) ≤ v ∧ v < 2 ^ 31))
  | .I64 v =>
    decide ((-(2 ^ 63) ≤ v ∧ v < -(2 ^ 31)) ∨ ((2 ^ 32 : Int) ≤ v ∧ v < 2 ^ 63))
  | .I128 v =>
    decide ((-(2 ^ 127) ≤ v ∧ v < -(2 ^ 63)) ∨
      ((2 ^ 64 : Int) ≤ v ∧ v < 2 ^ 127))
  | .U8 v => decide (v < 2 ^ 8)
  | .U16 v => decide (2 ^ 8 ≤ v ∧ v < 2 ^ 16)
  | .U32 v => decide (2 ^ 16 ≤ v ∧ v < 2 ^ 32)
  | .U64 v => decide (2 ^ 32 ≤ v ∧ v < 2 ^ 64)
  | .U128 v => decide (2 ^ 64 ≤ v ∧ v < 2 ^ 128)

theorem wfInteger_narrowest (i : Integer) (h : wfInteger i = true) :
    narrowestVariant i = true := by
  cases i <;>
    simp only [wfInteger, narrowestVariant, decide_eq_true_eq] at h ⊢ <;>
    omega

/-- On decoder-normal integers the `ValueVisitor` renormalization is the
identity. -/
theorem visit_integer_eq (i : Integer) (h : wfInteger i = true) :
    visit_integer i = i := by
  cases i with
  | I8 v => rfl
  | I16 v =>
    simp only [wfInteger, decide_eq_true_eq] at h
    simp only [visit_integer, Integer.fromI16]
    rw [if_neg (by omega), if_neg (by omega)]
  | I32 v =>
    simp only [wfInteger, decide_eq_true_eq] at h
    simp only [visit_integer, Integer.fromI32]
    rw [if_neg (by omega), if_neg (by omega)]
  | I64 v =>
    simp only [wfInteger, decide_eq_true_eq] at h
    simp only [visit_integer, Integer.fromI64]
    rw [if_neg (by omega), if_neg (by omega)]
  | I128 v =>
    simp only [wfInteger, decide_eq_true_eq] at h
    simp only [visit_integer, Integer.fromI128]
    rw [if_neg (by omega), if_neg (by omega)]
  | U8 v => rfl
  | U16 v =>
    simp only [wfInteger, decide_eq_true_eq] at h
    simp only [visit_integer, Integer.fromU16]
    rw [if_neg (by omega)]
  | U32 v =>
    simp only [wfInteger, decide_eq_true_eq] at h
    simp only [visit_integer, Integer.fromU32]
    rw [if_neg (by omega)]
  | U64 v =>
    simp only [wfInteger, decide_eq_true_eq] at h
    simp only [visit_integer, Integer.fromU64]
    rw [if_neg (by omega)]
  | U128 v =>
    simp only [wfInteger, decide_eq_true_eq] at h
    simp only [visit_integer, Integer.fromU128]
    rw [if_neg (by omega)]

mutual

/-- Well-formed values: integers in normal form, byte payloads that are
not valid UTF-8 (those decode as strings), strings made of Unicode scalar
values, and all length arguments within `u64`. -/
def wfValue : Value → Bool
  | .None => true
  | .Unit => true
  | .Bool _ => true
  | .Integer i => wfInteger i
  | .Bytes b => decide (b.length < 2 ^ 64) && (utf8Decode b).isNone
  | .String s =>
    decide ((utf8Encode s).length < 2 ^ 64) &&
      s.all fun c => decide (validScalar c)
  | .Sequence xs => decide (xs.length < 2 ^ 64) && wfList xs
  | .Mappings kvs => decide (kvs.length < 2 ^ 64) && wfPairs kvs

def wfList : List Value → Bool
  | [] => true
  | x :: xs => wfValue x && wfList xs

def wfPairs : List (Value × Value) → Bool
  | [] => true
  | (k, v) :: kvs => wfValue k && wfValue v && wfPairs kvs

end

mutual

/-- Decoder fuel needed for a value (one unit per nesting step). -/
def costValue : Value → Nat
  | .Sequence xs => 1 + costList xs
  | .Mappings kvs => 1 + costPairs kvs
  | _ => 1

def costList : List Value → Nat
  | [] => 0
  | x :: xs => 1 + costValue x + costList xs

def costPairs : List (Value × Value) → Nat
  | [] => 0
  | (k, v) :: kvs => 1 + costValue k + costValue v + costPairs kvs

end

/-- The allocation-budget deduction incurred by decoding a normal-form
integer (the in-memory size of its minimal encoding). -/
def deductInteger : Integer → Nat
  | .I8 v | .I16 v | .I32 v | .I64 v | .I128 v =>
    in_memory_int_size (minSignedWidth v)
  | .U8 v | .U16 v | .U32 v | .U64 v | .U128 v =>
    in_memory_int_size (minUnsignedWidth v)

mutual

/-- Total allocation-budget deduction incurred by decoding the encoding
of a well-formed value. -/
def deductValue : Value → Nat
  | .None => 0
  | .Unit => 0
  | .Bool _ => 0
  | .Integer i => deductInteger i
  | .Bytes b => b.length
  | .String s => (utf8Encode s).length
  | .Sequence xs => deductList xs
  | .Mappings kvs => deductPairs kvs

def deductList : List Value → Nat
  | [] => 0
  | x :: xs => deductValue x + deductList xs

def deductPairs : List (Value × Value) → Nat
  | [] => 0
  | (k, v) :: kvs => deductValue k + deductValue v + deductPairs kvs

end

theorem leValue_leBytes : ∀ (w m : Nat), leValue (leBytes w m) = m % 2 ^ (8 * w) := by
  intro w
  induction w with
  | zero =>
    intro m
    simp only [leBytes, leValue]
    omega
  | succ w ih =>
    intro m
    rw [show 8 * (w + 1) = 8 + 8 * w by ring, pow_add]
    simp only [leBytes, leValue, ih]
    rw [show (2 : Nat) ^ 8 * 2 ^ (8 * w) = 256 * 2 ^ (8 * w) by norm_num]
    rw [Nat.mod_mul]

theorem readLeNat_leBytes (w m : Nat) (rest : List Nat) :
    readLeNat w (leBytes w m ++ rest) = .ok (m % 2 ^ (8 * w), rest) := by
  have h := readExact_append (leBytes w m) rest
  rw [leBytes_length] at h
  unfold readLeNat
  rw [h]
  dsimp only
  rw [leValue_leBytes]

theorem signExtend_emod (w : Nat) (hw : 1 ≤ w) (v : Int)
    (h1 : -(2 ^ (8 * w - 1)) ≤ v) (h2 : v < 2 ^ (8 * w - 1)) :
    signExtend w ((v.emod (2 ^ (8 * w))).toNat) = v := by
  have hsplit : (2 : Int) ^ (8 * w) = 2 ^ (8 * w - 1) * 2 := by
    conv_lhs => rw [show 8 * w = 8 * w - 1 + 1 by omega]
    rw [pow_succ]
  have hNpos : (0 : Int) < 2 ^ (8 * w) := by positivity
  have hemod : v.emod (2 ^ (8 * w)) = v % (2 ^ (8 * w)) := rfl
  have hge : 0 ≤ v % (2 ^ (8 * w)) := Int.emod_nonneg v (by omega)
  have he : v % (2 ^ (8 * w)) = v ∨ v % (2 ^ (8 * w)) = v + 2 ^ (8 * w) := by
    rcases le_or_lt 0 v with hv | hv
    · left
      exact Int.emod_eq_of_lt hv (by omega)
    · right
      have h3 : (v + 2 ^ (8 * w) * 1) % (2 ^ (8 * w)) = v % (2 ^ (8 * w)) := by
        rw [Int.add_mul_emod_self_left]
      rw [mul_one] at h3
      rw [← h3]
      exact Int.emod_eq_of_lt (by omega) (by omega)
  have hnat : ((2 ^ (8 * w - 1) : Nat) : Int) = (2 : Int) ^ (8 * w - 1) := by
    push_cast
    rfl
  have hnat2 : ((2 ^ (8 * w) : Nat) : Int) = (2 : Int) ^ (8 * w) := by
    push_cast
    rfl
  unfold signExtend
  rw [hemod]
  rcases he with he | he <;> rw [he]
  · rw [if_pos (by omega)]
    omega
  · rw [if_neg (by omega)]
    omega

/-- A one-byte atom header round-trips (`write_tiny_atom_header` agrees
with `write_atom_header` below 16). -/
theorem read_tiny_atom_header (k : Kind) (arg : Nat) (h : arg < 16)
    (rest : List Nat) :
    read_atom_header (write_tiny_atom_header k arg ++ rest) =
      .ok (k, arg, rest) := by
  have h2 := read_write_atom_header k arg (by omega) rest
  rwa [write_atom_header, if_pos h] at h2

/-- The in-memory `Integer` variant `Integer::read_from` builds for a
signed payload of each supported width. -/
def signedVariant (w : Nat) (v : Int) : Integer :=
  if w ≤ 1 then .I8 v
  else if w ≤ 2 then .I16 v
  else if w ≤ 4 then .I32 v
  else if w ≤ 8 then .I64 v
  else .I128 v

/-- The in-memory `Integer` variant `Integer::read_from` builds for an
unsigned payload of each supported width. -/
def unsignedVariant (w : Nat) (v : Nat) : Integer :=
  if w ≤ 1 then .U8 v
  else if w ≤ 2 then .U16 v
  else if w ≤ 4 then .U32 v
  else if w ≤ 8 then .U64 v
  else .U128 v

theorem read_from_intLeBytes (w : Nat)
    (hw : w = 1 ∨ w = 2 ∨ w = 3 ∨ w = 4 ∨ w = 6 ∨ w = 8 ∨ w = 16) (v : Int)
    (h1 : -(2 ^ (8 * w - 1)) ≤ v) (h2 : v < 2 ^ (8 * w - 1))
    (rest : List Nat) :
    Integer.read_from .Int w (intLeBytes w v ++ rest) =
      .ok (signedVariant w v, rest) := by
  have hcast : ((2 ^ (8 * w) : Nat) : Int) = 2 ^ (8 * w) := by
    push_cast
    rfl
  have hlt : (v.emod (2 ^ (8 * w))).toNat < 2 ^ (8 * w) := by
    have hpos : (0 : Int) < 2 ^ (8 * w) := by positivity
    have h3 := Int.emod_lt_of_pos v hpos
    have h4 := Int.emod_nonneg v (show (2 : Int) ^ (8 * w) ≠ 0 by omega)
    have h5 : v.emod (2 ^ (8 * w)) = v % (2 ^ (8 * w)) := rfl
    omega
  have hse := signExtend_emod w (by omega) v h1 h2
  rcases hw with hw | hw | hw | hw | hw | hw | hw <;> subst hw <;>
    (simp only [Integer.read_from]
     unfold intLeBytes
     rw [readLeNat_leBytes, Nat.mod_eq_of_lt hlt]
     norm_num at hse
     simp [Except.map, hse, signedVariant])

theorem read_from_leBytes_uint (w : Nat)
    (hw : w = 1 ∨ w = 2 ∨ w = 3 ∨ w = 4 ∨ w = 6 ∨ w = 8 ∨ w = 16) (v : Nat)
    (hv : v < 2 ^ (8 * w)) (rest : List Nat) :
    Integer.read_from .UInt w (leBytes w v ++ rest) =
      .ok (unsignedVariant w v, rest) := by
  rcases hw with hw | hw | hw | hw | hw | hw | hw <;> subst hw <;>
    (simp only [Integer.read_from]
     rw [readLeNat_leBytes]
     norm_num at hv
     simp [Except.map, Nat.mod_eq_of_lt hv, unsignedVariant])

theorem read_atom_int_spine (k : Kind) (hk : k = .Int ∨ k = .UInt) (w : Nat)
    (hw1 : 1 ≤ w) (hw16 : w ≤ 16) (payload rest : List Nat) (budget : Nat)
    (hb : in_memory_int_size w ≤ budget) (i : Integer)
    (hread : Integer.read_from k w (payload ++ rest) = .ok (i, rest)) :
    read_atom (write_tiny_atom_header k (w - 1) ++ payload ++ rest) budget =
      .ok (⟨k, w - 1, some (.Integer i)⟩, budget - in_memory_int_size w,
        rest) := by
  unfold read_atom
  rw [List.append_assoc, read_tiny_atom_header k (w - 1) (by omega)]
  rcases hk with hk | hk <;> subst hk <;>
    (dsimp only
     rw [show (w - 1 + 1) % 2 ^ 64 = w by omega]
     unfold update_budget
     rw [if_pos hb]
     dsimp only
     rw [hread])

/-- `read_atom` on the encoding of an in-range integer written by the
narrowing writers: the atom carries the same numeric value in the
narrowest in-memory variant, and the budget is charged the in-memory size
of the minimal width. -/
theorem read_atom_integer (i : Integer) (hwf : narrowestVariant i = true)
    (budget : Nat) (rest : List Nat) (hb : deductInteger i ≤ budget) :
    ∃ (k : Kind) (a : Nat), (k = .Int ∨ k = .UInt) ∧
      read_atom (Integer.write_to i ++ rest) budget =
        .ok (⟨k, a, some (.Integer i)⟩, budget - deductInteger i, rest) := by
  cases i with
  | I8 v =>
    simp only [narrowestVariant, decide_eq_true_eq] at hwf
    simp only [deductInteger] at hb ⊢
    have hw : minSignedWidth v = 1 := by
      unfold minSignedWidth
      rw [if_pos hwf]
    refine ⟨.Int, minSignedWidth v - 1, Or.inl rfl, ?_⟩
    rw [show Integer.write_to (.I8 v) = write_i8 v from rfl,
      write_i8_minimal v hwf.1 hwf.2, hw]
    rw [hw] at hb
    refine read_atom_int_spine .Int (Or.inl rfl) 1 (by omega) (by omega) _
      rest budget hb _ ?_
    have h := read_from_intLeBytes 1 (by omega) v (by exact_mod_cast hwf.1)
      (by exact_mod_cast hwf.2) rest
    rwa [show signedVariant 1 v = .I8 v from rfl] at h
  | I16 v =>
    simp only [narrowestVariant, decide_eq_true_eq] at hwf
    simp only [deductInteger] at hb ⊢
    obtain ⟨hr, hnr⟩ := hwf
    have hw : minSignedWidth v = 2 := by
      unfold minSignedWidth
      rw [if_neg hnr, if_pos hr]
    refine ⟨.Int, minSignedWidth v - 1, Or.inl rfl, ?_⟩
    rw [show Integer.write_to (.I16 v) = write_i16 v from rfl,
      write_i16_minimal v hr.1 hr.2, hw]
    rw [hw] at hb
    refine read_atom_int_spine .Int (Or.inl rfl) 2 (by omega) (by omega) _
      rest budget hb _ ?_
    have h := read_from_intLeBytes 2 (by omega) v (by exact_mod_cast hr.1)
      (by exact_mod_cast hr.2) rest
    rwa [show signedVariant 2 v = .I16 v from rfl] at h
  | I32 v =>
    simp only [narrowestVariant, decide_eq_true_eq] at hwf
    simp only [deductInteger] at hb ⊢
    obtain ⟨hr, hnr⟩ := hwf
    have hcase : (minSignedWidth v = 3 ∧ -(2 ^ 23) ≤ v ∧ v < 2 ^ 23) ∨
        (minSignedWidth v = 4 ∧ ¬(-(2 ^ 23) ≤ v ∧ v < 2 ^ 23)) := by
      unfold minSignedWidth
      split_ifs <;> omega
    refine ⟨.Int, minSignedWidth v - 1, Or.inl rfl, ?_⟩
    rw [show Integer.write_to (.I32 v) = write_i32 v from rfl,
      write_i32_minimal v hr.1 hr.2]
    rcases hcase with ⟨hw, h1, h2⟩ | ⟨hw, hn⟩ <;> rw [hw] at hb ⊢
    · refine read_atom_int_spine .Int (Or.inl rfl) 3 (by omega) (by omega) _
        rest budget hb _ ?_
      have h := read_from_intLeBytes 3 (by omega) v (by exact_mod_cast h1)
        (by exact_mod_cast h2) rest
      rwa [show signedVariant 3 v = .I32 v from rfl] at h
    · refine read_atom_int_spine .Int (Or.inl rfl) 4 (by omega) (by omega) _
        rest budget hb _ ?_
      have h := read_from_intLeBytes 4 (by omega) v (by exact_mod_cast hr.1)
        (by exact_mod_cast hr.2) rest
      rwa [show signedVariant 4 v = .I32 v from rfl] at h
  | I64 v =>
    simp only [narrowestVariant, decide_eq_true_eq] at hwf
    simp only [deductInteger] at hb ⊢
    obtain ⟨hr, hnr⟩ := hwf
    have hcase : (minSignedWidth v = 6 ∧ -(2 ^ 47) ≤ v ∧ v < 2 ^ 47) ∨
        (minSignedWidth v = 8 ∧ ¬(-(2 ^ 47) ≤ v ∧ v < 2 ^ 47)) := by
      unfold minSignedWidth
      split_ifs <;> omega
    refine ⟨.Int, minSignedWidth v - 1, Or.inl rfl, ?_⟩
    rw [show Integer.write_to (.I64 v) = write_i64 v from rfl,
      write_i64_minimal v hr.1 hr.2]
    rcases hcase with ⟨hw, h1, h2⟩ | ⟨hw, hn⟩ <;> rw [hw] at hb ⊢
    · refine read_atom_int_spine .Int (Or.inl rfl) 6 (by omega) (by omega) _
        rest budget hb _ ?_
      have h := read_from_intLeBytes 6 (by omega) v (by exact_mod_cast h1)
        (by exact_mod_cast h2) rest
      rwa [show signedVariant 6 v = .I64 v from rfl] at h
    · refine read_atom_int_spine .Int (Or.inl rfl) 8 (by omega) (by omega) _
        rest budget hb _ ?_
      have h := read_from_intLeBytes 8 (by omega) v (by exact_mod_cast hr.1)
        (by exact_mod_cast hr.2) rest
      rwa [show signedVariant 8 v = .I64 v from rfl] at h
  | I128 v =>
    simp only [narrowestVariant, decide_eq_true_eq] at hwf
    simp only [deductInteger] at hb ⊢
    obtain ⟨hr, hnr⟩ := hwf
    have hw : minSignedWidth v = 16 := by
      unfold minSignedWidth
      split_ifs <;> omega
    refine ⟨.Int, minSignedWidth v - 1, Or.inl rfl, ?_⟩
    rw [show Integer.write_to (.I128 v) = write_i128 v from rfl,
      write_i128_minimal v hr.1 hr.2, hw]
    rw [hw] at hb
    refine read_atom_int_spine .Int (Or.inl rfl) 16 (by omega) (by omega) _
      rest budget hb _ ?_
    have h := read_from_intLeBytes 16 (by omega) v (by exact_mod_cast hr.1)
      (by exact_mod_cast hr.2) rest
    rwa [show signedVariant 16 v = .I128 v from rfl] at h
  | U8 v =>
    simp only [narrowestVariant, decide_eq_true_eq] at hwf
    simp only [deductInteger] at hb ⊢
    have hw : minUnsignedWidth v = 1 := by
      unfold minUnsignedWidth
      rw [if_pos hwf]
    refine ⟨.UInt, minUnsignedWidth v - 1, Or.inr rfl, ?_⟩
    rw [show Integer.write_to (.U8 v) = write_u8 v from rfl,
      write_u8_minimal v hwf, hw]
    rw [hw] at hb
    refine read_atom_int_spine .UInt (Or.inr rfl) 1 (by omega) (by omega) _
      rest budget hb _ ?_
    have h := read_from_leBytes_uint 1 (by omega) v (by norm_num; omega) rest
    rwa [show unsignedVariant 1 v = .U8 v from rfl] at h
  | U16 v =>
    simp only [narrowestVariant, decide_eq_true_eq] at hwf
    simp only [deductInteger] at hb ⊢
    have hw : minUnsignedWidth v = 2 := by
      unfold minUnsignedWidth
      split_ifs <;> omega
    refine ⟨.UInt, minUnsignedWidth v - 1, Or.inr rfl, ?_⟩
    rw [show Integer.write_to (.U16 v) = write_u16 v from rfl,
      write_u16_minimal v hwf.2, hw]
    rw [hw] at hb
    refine read_atom_int_spine .UInt (Or.inr rfl) 2 (by omega) (by omega) _
      rest budget hb _ ?_
    have h := read_from_leBytes_uint 2 (by omega) v (by norm_num; omega) rest
    rwa [show unsignedVariant 2 v = .U16 v from rfl] at h
  | U32 v =>
    simp only [narrowestVariant, decide_eq_true_eq] at hwf
    simp only [deductInteger] at hb ⊢
    have hcase : (minUnsignedWidth v = 3 ∧ v < 2 ^ 24) ∨
        (minUnsignedWidth v = 4 ∧ ¬v < 2 ^ 24) := by
      unfold minUnsignedWidth
      split_ifs <;> omega
    refine ⟨.UInt, minUnsignedWidth v - 1, Or.inr rfl, ?_⟩
    rw [show Integer.write_to (.U32 v) = write_u32 v from rfl,
      write_u32_minimal v hwf.2]
    rcases hcase with ⟨hw, h1⟩ | ⟨hw, hn⟩ <;> rw [hw] at hb ⊢
    · refine read_atom_int_spine .UInt (Or.inr rfl) 3 (by omega) (by omega) _
        rest budget hb _ ?_
      have h := read_from_leBytes_uint 3 (by omega) v (by norm_num; omega) rest
      rwa [show unsignedVariant 3 v = .U32 v from rfl] at h
    · refine read_atom_int_spine .UInt (Or.inr rfl) 4 (by omega) (by omega) _
        rest budget hb _ ?_
      have h := read_from_leBytes_uint 4 (by omega) v
        (by norm_num; omega) rest
      rwa [show unsignedVariant 4 v = .U32 v from rfl] at h
  | U64 v =>
    simp only [narrowestVariant, decide_eq_true_eq] at hwf
    simp only [deductInteger] at hb ⊢
    have hcase : (minUnsignedWidth v = 6 ∧ v < 2 ^ 48) ∨
        (minUnsignedWidth v = 8 ∧ ¬v < 2 ^ 48) := by
      unfold minUnsignedWidth
      split_ifs <;> omega
    refine ⟨.UInt, minUnsignedWidth v - 1, Or.inr rfl, ?_⟩
    rw [show Integer.write_to (.U64 v) = write_u64 v from rfl,
      write_u64_minimal v hwf.2]
    rcases hcase with ⟨hw, h1⟩ | ⟨hw, hn⟩ <;> rw [hw] at hb ⊢
    · refine read_atom_int_spine .UInt (Or.inr rfl) 6 (by omega) (by omega) _
        rest budget hb _ ?_
      have h := read_from_leBytes_uint 6 (by omega) v (by norm_num; omega) rest
      rwa [show unsignedVariant 6 v = .U64 v from rfl] at h
    · refine read_atom_int_spine .UInt (Or.inr rfl) 8 (by omega) (by omega) _
        rest budget hb _ ?_
      have h := read_from_leBytes_uint 8 (by omega) v
        (by norm_num; omega) rest
      rwa [show unsignedVariant 8 v = .U64 v from rfl] at h
  | U128 v =>
    simp only [narrowestVariant, decide_eq_true_eq] at hwf
    simp only [deductInteger] at hb ⊢
    have hw : minUnsignedWidth v = 16 := by
      unfold minUnsignedWidth
      split_ifs <;> omega
    refine ⟨.UInt, minUnsignedWidth v - 1, Or.inr rfl, ?_⟩
    rw [show Integer.write_to (.U128 v) = write_u128 v from rfl,
      write_u128_minimal v hwf.2, hw]
    rw [hw] at hb
    refine read_atom_int_spine .UInt (Or.inr rfl) 16 (by omega) (by omega) _
      rest budget hb _ ?_
    have h := read_from_leBytes_uint 16 (by omega) v (by norm_num; omega) rest
    rwa [show unsignedVariant 16 v = .U128 v from rfl] at h

/-- `read_atom` on a `write_bytes` emission: the payload is returned
verbatim and its announced length is charged to the budget. -/
theorem read_atom_bytes (b rest : List Nat) (budget : Nat)
    (h64 : b.length < 2 ^ 64) (hb : b.length ≤ budget) :
    read_atom (write_bytes b ++ rest) budget =
      .ok (⟨.Bytes, b.length, some (.Bytes b)⟩, budget - b.length, rest) := by
  unfold write_bytes read_atom
  rw [List.append_assoc, read_write_atom_header .Bytes b.length h64]
  dsimp only
  unfold update_budget
  rw [if_pos hb]
  dsimp only
  rw [readExact_append]

/-- `read_atom` on a `write_special` emission leaves the budget untouched
and produces the nucleus of the special. -/
theorem read_atom_special (s : Special) (rest : List Nat) (budget : Nat) :
    read_atom (write_special s ++ rest) budget =
      .ok (⟨.Special, s.toU64,
        match s with
        | .None => none
        | .Unit => some .Unit
        | .False => some (.Boolean false)
        | .True => some (.Boolean true)
        | .Named => some .Named
        | .DynamicMap => some .DynamicMap
        | .DynamicEnd => some .DynamicEnd⟩, budget, rest) := by
  cases s <;> rfl

/-- `read_atom` on a `Sequence`/`Map` header carries the count and leaves
the budget untouched. -/
theorem read_atom_seq_map (k : Kind) (hk : k = .Sequence ∨ k = .Map)
    (n : Nat) (h64 : n < 2 ^ 64) (rest : List Nat) (budget : Nat) :
    read_atom (write_atom_header k n ++ rest) budget =
      .ok (⟨k, n, none⟩, budget, rest) := by
  unfold read_atom
  rw [read_write_atom_header k n h64]
  rcases hk with hk | hk <;> subst hk <;> rfl

theorem ok_bind {ε α β : Type} (x : α) (f : α → Except ε β) :
    (Except.ok x >>= f) = f x := rfl

theorem one_le_costValue (v : Value) : 1 ≤ costValue v := by
  cases v <;> simp only [costValue] <;> omega

/-- The heart of the round-trip analysis: on well-formed values,
schema-less decoding inverts encoding, returns exactly the unconsumed
input, and deducts exactly the in-memory size from the budget — stated
simultaneously for values, sequence bodies and map bodies, for any fuel
at least the nesting cost. -/
theorem decode_encode (fuel : Nat) :
    (∀ v rest budget, wfValue v = true → costValue v ≤ fuel →
      deductValue v ≤ budget →
      decodeValue fuel (encodeValue v ++ rest) budget =
        .ok (v, budget - deductValue v, rest)) ∧
    (∀ xs rest budget, wfList xs = true → costList xs ≤ fuel →
      deductList xs ≤ budget →
      decodeList fuel xs.length (encodeList xs ++ rest) budget =
        .ok (xs, budget - deductList xs, rest)) ∧
    (∀ kvs rest budget, wfPairs kvs = true → costPairs kvs ≤ fuel →
      deductPairs kvs ≤ budget →
      decodePairs fuel kvs.length (encodePairs kvs ++ rest) budget =
        .ok (kvs, budget - deductPairs kvs, rest)) := by
  induction fuel with
  | zero =>
    refine ⟨?_, ?_, ?_⟩
    · intro v rest budget _ hcost _
      have := one_le_costValue v
      omega
    · intro xs rest budget _ hcost _
      cases xs with
      | nil => simp [encodeList, decodeList, deductList]
      | cons x xs => simp only [costList] at hcost; omega
    · intro kvs rest budget _ hcost _
      cases kvs with
      | nil => simp [encodePairs, decodePairs, deductPairs]
      | cons kv kvs =>
        obtain ⟨k, v⟩ := kv
        simp only [costPairs] at hcost
        omega
  | succ fuel ih =>
    obtain ⟨ihV, ihL, ihP⟩ := ih
    refine ⟨?_, ?_, ?_⟩
    · intro v rest budget hwf hcost hded
      cases v with
      | None =>
        simp only [deductValue, Nat.sub_zero]
        rfl
      | Unit =>
        simp only [deductValue, Nat.sub_zero]
        rfl
      | Bool b =>
        simp only [deductValue, Nat.sub_zero]
        cases b <;> rfl
      | Integer i =>
        simp only [wfValue] at hwf
        simp only [deductValue] at hded ⊢
        obtain ⟨k, a, hk, hread⟩ :=
          read_atom_integer i (wfInteger_narrowest i hwf) budget rest hded
        simp only [encodeValue, decodeValue]
        rw [hread, ok_bind]
        rcases hk with hk | hk <;> subst hk <;>
          (dsimp only
           rw [visit_integer_eq i hwf])
      | Bytes b =>
        simp only [wfValue, Bool.and_eq_true, decide_eq_true_eq,
          Option.isNone_iff_eq_none] at hwf
        obtain ⟨h64, hnone⟩ := hwf
        simp only [deductValue] at hded ⊢
        simp only [encodeValue, decodeValue]
        rw [read_atom_bytes b rest budget h64 hded, ok_bind]
        dsimp only
        rw [hnone]
      | String s =>
        simp only [wfValue, Bool.and_eq_true, decide_eq_true_eq,
          List.all_eq_true] at hwf
        obtain ⟨h64, hall⟩ := hwf
        have hvalid : ∀ c ∈ s, validScalar c := by
          intro c hc
          exact hall c hc
        simp only [deductValue] at hded ⊢
        simp only [encodeValue, write_str, decodeValue]
        rw [read_atom_bytes (utf8Encode s) rest budget h64 hded, ok_bind]
        dsimp only
        rw [utf8Decode_encode_self s hvalid]
      | Sequence xs =>
        simp only [wfValue, Bool.and_eq_true, decide_eq_true_eq] at hwf
        obtain ⟨h64, hwl⟩ := hwf
        simp only [costValue] at hcost
        simp only [deductValue] at hded ⊢
        simp only [encodeValue, decodeValue]
        rw [List.append_assoc,
          read_atom_seq_map .Sequence (Or.inl rfl) xs.length h64 _ budget,
          ok_bind]
        dsimp only
        rw [ihL xs rest budget hwl (by omega) hded, ok_bind]
      | Mappings kvs =>
        simp only [wfValue, Bool.and_eq_true, decide_eq_true_eq] at hwf
        obtain ⟨h64, hwp⟩ := hwf
        simp only [costValue] at hcost
        simp only [deductValue] at hded ⊢
        simp only [encodeValue, decodeValue]
        rw [List.append_assoc,
          read_atom_seq_map .Map (Or.inr rfl) kvs.length h64 _ budget,
          ok_bind]
        dsimp only
        rw [ihP kvs rest budget hwp (by omega) hded, ok_bind]
    · intro xs rest budget hwf hcost hded
      cases xs with
      | nil => simp [encodeList, decodeList, deductList]
      | cons x xs =>
        simp only [wfList, Bool.and_eq_true] at hwf
        obtain ⟨hwx, hwxs⟩ := hwf
        simp only [costList] at hcost
        simp only [deductList] at hded ⊢
        simp only [encodeList, List.length_cons, decodeList,
          List.append_assoc]
        rw [ihV x _ budget hwx (by omega) (by omega), ok_bind]
        dsimp only
        rw [ihL xs rest (budget - deductValue x) hwxs (by omega) (by omega),
          ok_bind]
        dsimp only
        rw [Nat.sub_sub]
    · intro kvs rest budget hwf hcost hded
      cases kvs with
      | nil => simp [encodePairs, decodePairs, deductPairs]
      | cons kv kvs =>
        obtain ⟨k, v⟩ := kv
        simp only [wfPairs, Bool.and_eq_true] at hwf
        obtain ⟨⟨hwk, hwv⟩, hwkvs⟩ := hwf
        simp only [costPairs] at hcost
        simp only [deductPairs] at hded ⊢
        simp only [encodePairs, List.length_cons, decodePairs,
          List.append_assoc]
        rw [ihV k _ budget hwk (by omega) (by omega), ok_bind]
        dsimp only
        rw [ihV v _ (budget - deductValue k) hwv (by omega) (by omega),
          ok_bind]
        dsimp only
        rw [ihP kvs rest (budget - deductValue k - deductValue v) hwkvs
          (by omega) (by omega), ok_bind]
        dsimp only
        rw [Nat.sub_sub, Nat.sub_sub, ← Nat.add_assoc]

/-! ## The serialization entry points (`lib.rs`) -/

/-- Embeds `lib.rs` `to_vec` / `Config::serialize`: the 4-byte magic and
version header followed by the value's atoms. -/
def to_vec (value : Value) : List Nat :=
  write_header CURRENT_VERSION ++ encodeValue value

/-- Embeds `lib.rs` `from_slice` / `Config::deserialize` with the default
allocation budget `usize::MAX`: header check, one value, then the
`end_of_input` check (`TrailingBytes` when input remains).  `fuel` is the
model's recursion bound (any value at least the nesting cost behaves like
the unbounded original). -/
def from_slice (serialized : List Nat) (fuel : Nat) : Except Error Value :=
  match deserializer_read_header serialized with
  | .error e => .error e
  | .ok rest =>
    match decodeValue fuel rest (2 ^ 64 - 1) with
    | .error e => .error e
    | .ok (value, _, remaining) =>
      if remaining.isEmpty then .ok value else .error .TrailingBytes

/-- C1: the round trip is NOT the identity on every encodable value: a
`Value::Bytes` payload that happens to be valid UTF-8 comes back as
`Value::String` (here `b"hi"`), and an `I64` holding a small value comes
back as the narrower variant `I8` (Rust's derived `PartialEq` on
`Integer` distinguishes variants, and pot's own test suite compares with
`assert_eq!`). -/
theorem pot_c1_counterexample :
    from_slice (to_vec (Value.Bytes [104, 105])) 9 =
        .ok (Value.String [104, 105]) ∧
      from_slice (to_vec (Value.Integer (.I64 5))) 9 =
        .ok (Value.Integer (.I8 5)) ∧
      Value.String [104, 105] ≠ Value.Bytes [104, 105] ∧
      Value.Integer (.I64 5) ≠ Value.Integer (.I8 5) := by
  refine ⟨rfl, rfl, ?_, ?_⟩
  · intro h
    exact Value.noConfusion h
  · intro h
    injection h with h2
    exact Integer.noConfusion h2

theorem read_header_magic (X : List Nat) :
    read_header (80 :: 111 :: 116 :: 0 :: X) = .ok (0, X) := by
  unfold read_header
  dsimp only
  rw [if_pos (by decide)]
  norm_num

theorem deserializer_read_header_of (input r : List Nat)
    (h : read_header input = .ok (0, r)) :
    deserializer_read_header input = .ok r := by
  unfold deserializer_read_header
  rw [h]
  dsimp only
  rw [if_pos (by decide)]

theorem deser_header (X : List Nat) :
    deserializer_read_header (write_header CURRENT_VERSION ++ X) =
      Except.ok X := by
  rw [show write_header CURRENT_VERSION ++ X = 80 :: 111 :: 116 :: 0 :: X
    from rfl]
  exact deserializer_read_header_of _ X (read_header_magic X)

theorem from_slice_of (s rest : List Nat) (fuel : Nat) (v : Value) (b : Nat)
    (h1 : deserializer_read_header s = .ok rest)
    (h2 : decodeValue fuel rest (2 ^ 64 - 1) = .ok (v, b, [])) :
    from_slice s fuel = .ok v := by
  unfold from_slice
  rw [h1]
  dsimp only
  rw [h2]
  dsimp only
  rw [if_pos (show List.isEmpty ([] : List Nat) = true from rfl)]

/-- C1 (amended): on well-formed values -- integers already in the
decoder's normal form (the fixpoint of `Integer::read_from` followed by
`ValueVisitor`'s `Integer::from`, which also renormalizes non-negative
signed values into unsigned variants, e.g. `I16(200)` decodes as
`U8(200)`), byte payloads that are not valid UTF-8, strings made of
Unicode scalars, and all lengths plus the total in-memory size within
`usize` -- deserializing the serialized bytes yields the value back
exactly, for any recursion fuel at least the value's nesting cost. -/
theorem pot_c1_amended (v : Value) (fuel : Nat) (hwf : wfValue v = true)
    (hcost : costValue v ≤ fuel) (hded : deductValue v ≤ 2 ^ 64 - 1) :
    from_slice (to_vec v) fuel = .ok v := by
  have h := (decode_encode fuel).1 v [] (2 ^ 64 - 1) hwf hcost hded
  rw [List.append_nil] at h
  exact from_slice_of _ _ fuel v _ (deser_header (encodeValue v)) h

theorem pot_c1_amended_witness :
    wfValue (Value.Sequence [Value.Integer (.U8 7), Value.String [104],
        Value.Bytes [255]]) = true ∧
      costValue (Value.Sequence [Value.Integer (.U8 7), Value.String [104],
        Value.Bytes [255]]) ≤ 9 ∧
      deductValue (Value.Sequence [Value.Integer (.U8 7),
        Value.String [104], Value.Bytes [255]]) ≤ 2 ^ 64 - 1 ∧
      from_slice (to_vec (Value.Sequence [Value.Integer (.U8 7),
          Value.String [104], Value.Bytes [255]])) 9 =
        .ok (Value.Sequence [Value.Integer (.U8 7), Value.String [104],
          Value.Bytes [255]]) :=
  ⟨rfl, by decide, by decide,
    pot_c1_amended _ 9 rfl (by decide) (by decide)⟩

/-- C10: when `deserialize_any` reads a `Bytes` atom, the payload is
presented as a string exactly when it is valid UTF-8 (`str::from_utf8`
succeeds) and as raw bytes otherwise; in the schema-less `Value` decoding
this turns UTF-8 byte payloads into `Value::String` and leaves the rest
as `Value::Bytes`.  The budget is charged the payload length either
way. -/
theorem pot_c10_theorem (b rest : List Nat) (fuel budget : Nat)
    (h64 : b.length < 2 ^ 64) (hb : b.length ≤ budget) :
    decodeValue (fuel + 1) (write_bytes b ++ rest) budget =
        .ok ((match utf8Decode b with
          | some s => Value.String s
          | none => Value.Bytes b), budget - b.length, rest) ∧
      (∀ s, utf8Decode b = some s →
        decodeValue (fuel + 1) (write_bytes b ++ rest) budget =
          .ok (Value.String s, budget - b.length, rest)) ∧
      (utf8Decode b = none →
        decodeValue (fuel + 1) (write_bytes b ++ rest) budget =
          .ok (Value.Bytes b, budget - b.length, rest)) := by
  have hmain : decodeValue (fuel + 1) (write_bytes b ++ rest) budget =
      .ok ((match utf8Decode b with
        | some s => Value.String s
        | none => Value.Bytes b), budget - b.length, rest) := by
    simp only [decodeValue]
    rw [read_atom_bytes b rest budget h64 hb, ok_bind]
    dsimp only
    cases hu : utf8Decode b <;> rfl
  refine ⟨hmain, ?_, ?_⟩
  · intro s hs
    rw [hmain, hs]
  · intro hn
    rw [hmain, hn]

theorem pot_c10_theorem_witness :
    ([104, 105] : List Nat).length < 2 ^ 64 ∧
      ([104, 105] : List Nat).length ≤ 10 ∧
      decodeValue 6 (write_bytes [104, 105] ++ [7]) 10 =
        .ok (Value.String [104, 105], 8, [7]) ∧
      decodeValue 6 (write_bytes [255] ++ []) 10 =
        .ok (Value.Bytes [255], 9, []) :=
  ⟨by decide, by decide,
    (pot_c10_theorem [104, 105] [7] 5 10 (by decide) (by decide)).2.1
      [104, 105] (by rfl),
    (pot_c10_theorem [255] [] 5 10 (by decide) (by decide)).2.2 (by rfl)⟩

/-! ## Typed deserializers (`de.rs` `Deserializer` methods)

Each returns the visited result plus the remaining budget and input
(primitive serde visitors are identities on the visited value).  Floats
are carried as bit patterns; paths performing IEEE float arithmetic are
marked `floatSemanticsOutsideModel`, and symbol-table and `char` paths
are outside the modelled fragment (`Message`, as are the sources'
`Error::custom` and `unreachable!` exits). -/

/-- Embeds `deserialize_bool`. -/
def deserialize_bool (input : List Nat) (budget : Nat) :
    Except Error (Bool × Nat × List Nat) := do
  let (atom, budget, rest) ← read_atom input budget
  match atom.kind with
  | .Special | .UInt | .Int =>
    match atom.nucleus with
    | some (.Integer integer) => .ok (!integer.is_zero, budget, rest)
    | some (.Boolean b) => .ok (b, budget, rest)
    | some .Unit => .ok (false, budget, rest)
    | none => .ok (false, budget, rest)
    | _ => .error .Message
  | _ => .error .Message

/-- Embeds `deserialize_i8` (and the shape shared by the signed widths):
integer atoms convert with the checked cast, `Special(Unit)`/
`Special(None)` visit zero, anything else is an error. -/
def deserialize_i8 (input : List Nat) (budget : Nat) :
    Except Error (Int × Nat × List Nat) := do
  let (atom, budget, rest) ← read_atom input budget
  match atom.kind with
  | .UInt | .Int =>
    match atom.nucleus with
    | some (.Integer integer) =>
      match integer.as_i8 with
      | .ok v => .ok (v, budget, rest)
      | .error e => .error e
    | _ => .error .Message
  | .Special =>
    if atom.nucleus = some .Unit ∨ atom.nucleus = none then
      .ok (0, budget, rest)
    else .error .Message
  | _ => .error .Message

/-- Embeds `deserialize_i16`. -/
def deserialize_i16 (input : List Nat) (budget : Nat) :
    Except Error (Int × Nat × List Nat) := do
  let (atom, budget, rest) ← read_atom input budget
  match atom.kind with
  | .UInt | .Int =>
    match atom.nucleus with
    | some (.Integer integer) =>
      match integer.as_i16 with
      | .ok v => .ok (v, budget, rest)
      | .error e => .error e
    | _ => .error .Message
  | .Special =>
    if atom.nucleus = some .Unit ∨ atom.nucleus = none then
      .ok (0, budget, rest)
    else .error .Message
  | _ => .error .Message

/-- Embeds `deserialize_i32`. -/
def deserialize_i32 (input : List Nat) (budget : Nat) :
    Except Error (Int × Nat × List Nat) := do
  let (atom, budget, rest) ← read_atom input budget
  match atom.kind with
  | .UInt | .Int =>
    match atom.nucleus with
    | some (.Integer integer) =>
      match integer.as_i32 with
      | .ok v => .ok (v, budget, rest)
      | .error e => .error e
    | _ => .error .Message
  | .Special =>
    if atom.nucleus = some .Unit ∨ atom.nucleus = none then
      .ok (0, budget, rest)
    else .error .Message
  | _ => .error .Message

/-- Embeds `deserialize_i64`. -/
def deserialize_i64 (input : List Nat) (budget : Nat) :
    Except Error (Int × Nat × List Nat) := do
  let (atom, budget, rest) ← read_atom input budget
  match atom.kind with
  | .UInt | .Int =>
    match atom.nucleus with
    | some (.Integer integer) =>
      match integer.as_i64 with
      | .ok v => .ok (v, budget, rest)
      | .error e => .error e
    | _ => .error .Message
  | .Special =>
    if atom.nucleus = some .Unit ∨ atom.nucleus = none then
      .ok (0, budget, rest)
    else .error .Message
  | _ => .error .Message

/-- Embeds `deserialize_i128`. -/
def deserialize_i128 (input : List Nat) (budget : Nat) :
    Except Error (Int × Nat × List Nat) := do
  let (atom, budget, rest) ← read_atom input budget
  match atom.kind with
  | .UInt | .Int =>
    match atom.nucleus with
    | some (.Integer integer) =>
      match integer.as_i128 with
      | .ok v => .ok (v, budget, rest)
      | .error e => .error e
    | _ => .error .Message
  | .Special =>
    if atom.nucleus = some .Unit ∨ atom.nucleus = none then
      .ok (0, budget, rest)
    else .error .Message
  | _ => .error .Message

/-- Embeds `deserialize_u8`. -/
def deserialize_u8 (input : List Nat) (budget : Nat) :
    Except Error (Nat × Nat × List Nat) := do
  let (atom, budget, rest) ← read_atom input budget
  match atom.kind with
  | .UInt | .Int =>
    match atom.nucleus with
    | some (.Integer integer) =>
      match integer.as_u8 with
      | .ok v => .ok (v, budget, rest)
      | .error e => .error e
    | _ => .error .Message
  | .Special =>
    if atom.nucleus = some .Unit ∨ atom.nucleus = none then
      .ok (0, budget, rest)
    else .error .Message
  | _ => .error .Message

/-- Embeds `deserialize_u16`. -/
def deserialize_u16 (input : List Nat) (budget : Nat) :
    Except Error (Nat × Nat × List Nat) := do
  let (atom, budget, rest) ← read_atom input budget
  match atom.kind with
  | .UInt | .Int =>
    match atom.nucleus with
    | some (.Integer integer) =>
      match integer.as_u16 with
      | .ok v => .ok (v, budget, rest)
      | .error e => .error e
    | _ => .error .Message
  | .Special =>
    if atom.nucleus = some .Unit ∨ atom.nucleus = none then
      .ok (0, budget, rest)
    else .error .Message
  | _ => .error .Message

/-- Embeds `deserialize_u32`. -/
def deserialize_u32 (input : List Nat) (budget : Nat) :
    Except Error (Nat × Nat × List Nat) := do
  let (atom, budget, rest) ← read_atom input budget
  match atom.kind with
  | .UInt | .Int =>
    match atom.nucleus with
    | some (.Integer integer) =>
      match integer.as_u32 with
      | .ok v => .ok (v, budget, rest)
      | .error e => .error e
    | _ => .error .Message
  | .Special =>
    if atom.nucleus = some .Unit ∨ atom.nucleus = none then
      .ok (0, budget, rest)
    else .error .Message
  | _ => .error .Message

/-- Embeds `deserialize_u64`. -/
def deserialize_u64 (input : List Nat) (budget : Nat) :
    Except Error (Nat × Nat × List Nat) := do
  let (atom, budget, rest) ← read_atom input budget
  match atom.kind with
  | .UInt | .Int =>
    match atom.nucleus with
    | some (.Integer integer) =>
      match integer.as_u64 with
      | .ok v => .ok (v, budget, rest)
      | .error e => .error e
    | _ => .error .Message
  | .Special =>
    if atom.nucleus = some .Unit ∨ atom.nucleus = none then
      .ok (0, budget, rest)
    else .error .Message
  | _ => .error .Message

/-- Embeds `deserialize_u128`. -/
def deserialize_u128 (input : List Nat) (budget : Nat) :
    Except Error (Nat × Nat × List Nat) := do
  let (atom, budget, rest) ← read_atom input budget
  match atom.kind with
  | .UInt | .Int =>
    match atom.nucleus with
    | some (.Integer integer) =>
      match integer.as_u128 with
      | .ok v => .ok (v, budget, rest)
      | .error e => .error e
    | _ => .error .Message
  | .Special =>
    if atom.nucleus = some .Unit ∨ atom.nucleus = none then
      .ok (0, budget, rest)
    else .error .Message
  | _ => .error .Message

/-- Embeds `deserialize_f32`: only `Kind::Int` integer atoms convert (by
IEEE arithmetic, outside the model); `Float` atoms pass an `F32` bit
pattern through (`Float::as_f32` is the identity there);
`Special(Unit)`/`Special(None)` visit `0.0f32`, whose bit pattern is
zero. -/
def deserialize_f32 (input : List Nat) (budget : Nat) :
    Except Error (Float × Nat × List Nat) := do
  let (atom, budget, rest) ← read_atom input budget
  match atom.kind with
  | .Int =>
    match atom.nucleus with
    | some (.Integer _) => .error .floatSemanticsOutsideModel
    | _ => .error .Message
  | .Float =>
    match atom.nucleus with
    | some (.Float f) =>
      match f with
      | .F32 bits => .ok (.F32 bits, budget, rest)
      | .F64 _ => .error .floatSemanticsOutsideModel
    | _ => .error .Message
  | .Special =>
    if atom.nucleus = some .Unit ∨ atom.nucleus = none then
      .ok (.F32 0, budget, rest)
    else .error .Message
  | _ => .error .Message

/-- Embeds `deserialize_f64` (mirror image of `deserialize_f32`;
`0.0f64` also has the all-zero bit pattern). -/
def deserialize_f64 (input : List Nat) (budget : Nat) :
    Except Error (Float × Nat × List Nat) := do
  let (atom, budget, rest) ← read_atom input budget
  match atom.kind with
  | .Int =>
    match atom.nucleus with
    | some (.Integer _) => .error .floatSemanticsOutsideModel
    | _ => .error .Message
  | .Float =>
    match atom.nucleus with
    | some (.Float f) =>
      match f with
      | .F64 bits => .ok (.F64 bits, budget, rest)
      | .F32 _ => .error .floatSemanticsOutsideModel
    | _ => .error .Message
  | .Special =>
    if atom.nucleus = some .Unit ∨ atom.nucleus = none then
      .ok (.F64 0, budget, rest)
    else .error .Message
  | _ => .error .Message

/-- Embeds `deserialize_str` (strings as scalar lists): `Bytes` payloads
must be UTF-8, a `Special(Named)` atom is skipped and decoding restarts,
`Special(Unit)`/`Special(None)` visit the empty string; symbol paths are
outside the modelled fragment. -/
def deserialize_str : Nat → List Nat → Nat →
    Except Error (List Nat × Nat × List Nat)
  | 0, _, _ => .error .outOfFuel
  | fuel + 1, input, budget => do
    let (atom, budget, rest) ← read_atom input budget
    match atom.kind with
    | .Bytes =>
      match atom.nucleus with
      | some (.Bytes bytes) =>
        match utf8Decode bytes with
        | some s => .ok (s, budget, rest)
        | none => .error .InvalidUtf8
      | _ => .error .Message
    | .Symbol => .error .Message
    | .Special =>
      if atom.nucleus = some .Named then deserialize_str fuel rest budget
      else if atom.nucleus = some .Unit ∨ atom.nucleus = none then
        .ok ([], budget, rest)
      else .error .Message
    | _ => .error .Message
  termination_by structural fuel _ _ => fuel

/-- The element loop of `deserialize_bytes`' `Kind::Sequence` branch:
`atom.arg` integer atoms, each narrowed with `as_u8`. -/
def read_byte_seq : Nat → List Nat → Nat →
    Except Error (List Nat × Nat × List Nat)
  | 0, input, budget => .ok ([], budget, input)
  | n + 1, input, budget => do
    let (atom, budget, rest) ← read_atom input budget
    match atom.nucleus with
    | some (.Integer integer) =>
      match integer.as_u8 with
      | .ok b => do
        let (bs, budget, rest) ← read_byte_seq n rest budget
        .ok (b :: bs, budget, rest)
      | .error e => .error e
    | _ => .error .Message

/-- Embeds `deserialize_bytes`: a `Bytes` payload verbatim, a `Sequence`
of integer atoms collected bytewise, or the empty slice for
`Special(Unit)`/`Special(None)`. -/
def deserialize_bytes (input : List Nat) (budget : Nat) :
    Except Error (List Nat × Nat × List Nat) := do
  let (atom, budget, rest) ← read_atom input budget
  match atom.kind with
  | .Bytes =>
    match atom.nucleus with
    | some (.Bytes bytes) => .ok (bytes, budget, rest)
    | _ => .error .Message
  | .Sequence => read_byte_seq atom.arg rest budget
  | .Special =>
    if atom.nucleus = some .Unit ∨ atom.nucleus = none then
      .ok ([], budget, rest)
    else .error .Message
  | _ => .error .Message

/-- Embeds `deserialize_seq` driving the schema-less element decoding:
`visit_seq(AtomList)` for a `Sequence` atom, `visit_seq(EmptyList)` (no
elements) for `Special(Unit)`/`Special(None)`. -/
def deserialize_seq (fuel : Nat) (input : List Nat) (budget : Nat) :
    Except Error (List Value × Nat × List Nat) := do
  let (atom, budget, rest) ← read_atom input budget
  if atom.kind = .Sequence then decodeList fuel atom.arg rest budget
  else if atom.kind = .Special ∧
      (atom.nucleus = some .Unit ∨ atom.nucleus = none) then
    .ok ([], budget, rest)
  else .error .Message

/-- Embeds `deserialize_map`: counted entries for a `Map` atom, entries
to `DynamicEnd` for `Special(DynamicMap)`, no entries for
`Special(Unit)`/`Special(None)`. -/
def deserialize_map (fuel : Nat) (input : List Nat) (budget : Nat) :
    Except Error (List (Value × Value) × Nat × List Nat) := do
  let (atom, budget, rest) ← read_atom input budget
  match atom.kind, atom.nucleus with
  | .Map, _ => decodePairs fuel atom.arg rest budget
  | .Special, some .DynamicMap => decodeDynPairs fuel rest budget
  | .Special, some .Unit => .ok ([], budget, rest)
  | .Special, none => .ok ([], budget, rest)
  | _, _ => .error .Message

/-- Embeds `deserialize_option`: `peek_atom`, `None` on a
`Special(None)` atom (then consuming it), otherwise `visit_some` which
re-decodes from the same position (the FIFO re-queue is re-reading the
same bytes with the same budget). -/
def deserialize_option (fuel : Nat) (input : List Nat) (budget : Nat) :
    Except Error (Option Value × Nat × List Nat) := do
  let (atom, budget2, rest2) ← read_atom input budget
  if atom.kind = .Special ∧ atom.nucleus = none then
    .ok (none, budget2, rest2)
  else do
    let (v, budget, rest) ← decodeValue fuel input budget
    .ok (some v, budget, rest)

/-- C9: a `Special(Unit)` or `Special(None)` atom decodes, under every
primitive type request, to that type's zero or empty value — `false` for
`bool`, zero for every integer width and both float widths (zero bit
pattern), the empty string and the empty byte slice, the empty sequence
and map — leaving budget and remaining input untouched; for options,
`Special(None)` yields `None`. -/
theorem pot_c9_theorem (rest : List Nat) (budget fuel : Nat) :
    (deserialize_bool (write_unit ++ rest) budget =
        .ok (false, budget, rest) ∧
      deserialize_bool (write_none ++ rest) budget =
        .ok (false, budget, rest)) ∧
    (deserialize_i8 (write_unit ++ rest) budget = .ok (0, budget, rest) ∧
      deserialize_i8 (write_none ++ rest) budget = .ok (0, budget, rest)) ∧
    (deserialize_i16 (write_unit ++ rest) budget = .ok (0, budget, rest) ∧
      deserialize_i16 (write_none ++ rest) budget = .ok (0, budget, rest)) ∧
    (deserialize_i32 (write_unit ++ rest) budget = .ok (0, budget, rest) ∧
      deserialize_i32 (write_none ++ rest) budget = .ok (0, budget, rest)) ∧
    (deserialize_i64 (write_unit ++ rest) budget = .ok (0, budget, rest) ∧
      deserialize_i64 (write_none ++ rest) budget = .ok (0, budget, rest)) ∧
    (deserialize_i128 (write_unit ++ rest) budget = .ok (0, budget, rest) ∧
      deserialize_i128 (write_none ++ rest) budget = .ok (0, budget, rest)) ∧
    (deserialize_u8 (write_unit ++ rest) budget = .ok (0, budget, rest) ∧
      deserialize_u8 (write_none ++ rest) budget = .ok (0, budget, rest)) ∧
    (deserialize_u16 (write_unit ++ rest) budget = .ok (0, budget, rest) ∧
      deserialize_u16 (write_none ++ rest) budget = .ok (0, budget, rest)) ∧
    (deserialize_u32 (write_unit ++ rest) budget = .ok (0, budget, rest) ∧
      deserialize_u32 (write_none ++ rest) budget = .ok (0, budget, rest)) ∧
    (deserialize_u64 (write_unit ++ rest) budget = .ok (0, budget, rest) ∧
      deserialize_u64 (write_none ++ rest) budget = .ok (0, budget, rest)) ∧
    (deserialize_u128 (write_unit ++ rest) budget = .ok (0, budget, rest) ∧
      deserialize_u128 (write_none ++ rest) budget = .ok (0, budget, rest)) ∧
    (deserialize_f32 (write_unit ++ rest) budget =
        .ok (.F32 0, budget, rest) ∧
      deserialize_f32 (write_none ++ rest) budget =
        .ok (.F32 0, budget, rest)) ∧
    (deserialize_f64 (write_unit ++ rest) budget =
        .ok (.F64 0, budget, rest) ∧
      deserialize_f64 (write_none ++ rest) budget =
        .ok (.F64 0, budget, rest)) ∧
    (deserialize_str (fuel + 1) (write_unit ++ rest) budget =
        .ok ([], budget, rest) ∧
      deserialize_str (fuel + 1) (write_none ++ rest) budget =
        .ok ([], budget, rest)) ∧
    (deserialize_bytes (write_unit ++ rest) budget =
        .ok ([], budget, rest) ∧
      deserialize_bytes (write_none ++ rest) budget =
        .ok ([], budget, rest)) ∧
    (deserialize_seq fuel (write_unit ++ rest) budget =
        .ok ([], budget, rest) ∧
      deserialize_seq fuel (write_none ++ rest) budget =
        .ok ([], budget, rest)) ∧
    (deserialize_map fuel (write_unit ++ rest) budget =
        .ok ([], budget, rest) ∧
      deserialize_map fuel (write_none ++ rest) budget =
        .ok ([], budget, rest)) ∧
    deserialize_option fuel (write_none ++ rest) budget =
      .ok (none, budget, rest) :=
  ⟨⟨rfl, rfl⟩, ⟨rfl, rfl⟩, ⟨rfl, rfl⟩, ⟨rfl, rfl⟩, ⟨rfl, rfl⟩,
    ⟨rfl, rfl⟩, ⟨rfl, rfl⟩, ⟨rfl, rfl⟩, ⟨rfl, rfl⟩, ⟨rfl, rfl⟩,
    ⟨rfl, rfl⟩, ⟨rfl, rfl⟩, ⟨rfl, rfl⟩, ⟨rfl, rfl⟩, ⟨rfl, rfl⟩,
    ⟨rfl, rfl⟩, ⟨rfl, rfl⟩, rfl⟩

/-! ## Symbol interning (`ser.rs` `EphemeralSymbolMap` / `write_symbol`)

A `&'static str` symbol is modelled as its address plus its contents;
`find_or_add` keys the map by ADDRESS only (the binary search over the
address-sorted vector is modelled as lookup in the address-keyed
association list it maintains; ids are stored alongside, so insertion
position does not affect them). -/

/-- A Rust `&'static str`: an address identifying the object and the
string's bytes. -/
structure StaticStr where
  address : Nat
  contents : List Nat
  deriving DecidableEq, Repr

/-- Embeds `EphemeralSymbolMap::find_or_add`: looks the symbol up BY
ADDRESS; on a miss registers it with the next id (`symbols.len()`).
Returns `(id, new)` and the updated map. -/
def find_or_add (m : List (StaticStr × Nat)) (symbol : StaticStr) :
    (Nat × Bool) × List (StaticStr × Nat) :=
  match m.find? (fun e => e.1.address = symbol.address) with
  | some e => ((e.2, false), m)
  | none => ((m.length, true), m ++ [(symbol, m.length)])

/-- Embeds `Serializer::write_symbol`: a new symbol emits a `Symbol`
atom whose argument is `len << 1` followed by the string bytes; an
already-registered one emits only a `Symbol` atom with argument
`id << 1 | 1`. -/
def write_symbol (m : List (StaticStr × Nat)) (symbol : StaticStr) :
    List Nat × List (StaticStr × Nat) :=
  let r := find_or_add m symbol
  if r.1.2 then
    (write_atom_header .Symbol (symbol.contents.length * 2) ++
      symbol.contents, r.2)
  else
    (write_atom_header .Symbol (r.1.1 * 2 + 1), r.2)

/-- One serialization session emitting a list of symbols in order. -/
def write_symbols (m : List (StaticStr × Nat)) :
    List StaticStr → List Nat × List (StaticStr × Nat)
  | [] => ([], m)
  | s :: ss =>
    let o := write_symbol m s
    let rest := write_symbols o.2 ss
    (o.1 ++ rest.1, rest.2)

theorem write_symbols_replicate (s : StaticStr) (e : StaticStr × Nat)
    (m : List (StaticStr × Nat))
    (h : m.find? (fun en => en.1.address = s.address) = some e) :
    ∀ j : Nat, write_symbols m (List.replicate j s) =
      ((List.replicate j (write_atom_header .Symbol (e.2 * 2 + 1))).flatten,
        m) := by
  intro j
  induction j with
  | zero => rfl
  | succ j ih =>
    simp only [List.replicate, write_symbols, write_symbol, find_or_add, h]
    simp [ih]

/-- C7: deduplication is NOT by string contents: two static strings with
equal contents `"a"` but different addresses each emit a full new-symbol
atom (argument `len << 1`, here `2`), where the claim predicts one new
atom plus one id reference (argument `0 << 1 | 1 = 1`). -/
theorem pot_c7_counterexample :
    (write_symbols [] [⟨0, [97]⟩, ⟨100, [97]⟩]).1 =
        write_atom_header .Symbol 2 ++ [97] ++
          (write_atom_header .Symbol 2 ++ [97]) ∧
      (⟨0, [97]⟩ : StaticStr).contents = (⟨100, [97]⟩ : StaticStr).contents ∧
      write_atom_header .Symbol 2 ++ [97] ++
          (write_atom_header .Symbol 2 ++ [97]) ≠
        write_atom_header .Symbol 2 ++ [97] ++
          write_atom_header .Symbol 1 := by
  refine ⟨by decide, rfl, by decide⟩

/-- C7 (amended): deduplication is by ADDRESS, not contents: the same
static string object emitted `k` times produces exactly one new-symbol
atom carrying the full string (argument `len << 1`) followed by `k - 1`
reference atoms carrying its id `0` (argument `0 << 1 | 1 = 1`); distinct
objects are never deduplicated, even with equal contents (see the
counterexample). -/
theorem pot_c7_amended (s : StaticStr) (k : Nat) (hk : 1 ≤ k) :
    (write_symbols [] (List.replicate k s)).1 =
      write_atom_header .Symbol (s.contents.length * 2) ++ s.contents ++
        (List.replicate (k - 1) (write_atom_header .Symbol 1)).flatten := by
  obtain ⟨j, rfl⟩ : ∃ j, k = j + 1 := ⟨k - 1, by omega⟩
  have hfind : ([(s, 0)] : List (StaticStr × Nat)).find?
      (fun en => en.1.address = s.address) = some (s, 0) := by
    simp [List.find?]
  have hrep := write_symbols_replicate s (s, 0) [(s, 0)] hfind j
  simp only [List.replicate, write_symbols, write_symbol, find_or_add,
    List.find?_nil, List.length_nil, List.nil_append, Nat.add_sub_cancel]
  simp [hrep, List.append_assoc]

theorem pot_c7_amended_witness :
    1 ≤ 3 ∧
      (write_symbols [] (List.replicate 3 ⟨5, [104, 105]⟩)).1 =
        write_atom_header .Symbol
            ((⟨5, [104, 105]⟩ : StaticStr).contents.length * 2) ++
          (⟨5, [104, 105]⟩ : StaticStr).contents ++
          (List.replicate (3 - 1) (write_atom_header .Symbol 1)).flatten :=
  ⟨by decide, pot_c7_amended ⟨5, [104, 105]⟩ 3 (by decide)⟩

/-! ## IEEE narrowing at the bit level (`write_f32` / `write_f64`)

All floats are bit patterns (`Nat`).  The narrowing casts `f64 as f32`
and `f16::from_f32` are the IEEE round-to-nearest-even conversions,
which are pure functions on bit patterns; the widenings are exact.  The
`==` tests of the source are IEEE equality: true exactly on two non-NaN
operands that are bit-identical or both zeros (interchange formats
encode each value uniquely up to the sign of zero). -/

/-- Shift `x` right by `k` bits, rounding to nearest, ties to even. -/
def rne (x k : Nat) : Nat :=
  let q := x / 2 ^ k
  let r := x % 2 ^ k
  if 2 ^ k < 2 * r ∨ (2 * r = 2 ^ k ∧ q % 2 = 1) then q + 1 else q

/-- An `f64` bit pattern is a NaN: exponent all ones, mantissa non-zero. -/
def isNaN64 (f : Nat) : Bool := decide (f / 2 ^ 52 % 2048 = 2047 ∧ f % 2 ^ 52 ≠ 0)

/-- An `f64` bit pattern is a (signed) zero. -/
def isZero64 (f : Nat) : Bool := decide (f % 2 ^ 63 = 0)

/-- IEEE `==` on `f64` bit patterns. -/
def f64Eq (a b : Nat) : Bool :=
  !isNaN64 a && !isNaN64 b && (decide (a = b) || (isZero64 a && isZero64 b))

/-- An `f32` bit pattern is a NaN. -/
def isNaN32 (g : Nat) : Bool := decide (g / 2 ^ 23 % 256 = 255 ∧ g % 2 ^ 23 ≠ 0)

/-- An `f32` bit pattern is a (signed) zero. -/
def isZero32 (g : Nat) : Bool := decide (g % 2 ^ 31 = 0)

/-- IEEE `==` on `f32` bit patterns. -/
def f32Eq (a b : Nat) : Bool :=
  !isNaN32 a && !isNaN32 b && (decide (a = b) || (isZero32 a && isZero32 b))

/-- The cast `f64 as f32` on bit patterns: round to nearest even,
overflow to infinity, subnormal doubles (all far below the `f32`
subnormal range) to signed zero.  A NaN input yields the canonical quiet
NaN; the source never exposes that output (its `==` guard fails on
NaN). -/
def f64ToF32Bits (f : Nat) : Nat :=
  let s := f / 2 ^ 63 % 2
  let e := f / 2 ^ 52 % 2048
  let m := f % 2 ^ 52
  if e = 2047 then
    if m = 0 then s * 2 ^ 31 + 255 * 2 ^ 23
    else s * 2 ^ 31 + 255 * 2 ^ 23 + 2 ^ 22
  else if e = 0 then s * 2 ^ 31
  else if 1151 ≤ e then s * 2 ^ 31 + 255 * 2 ^ 23
  else if 897 ≤ e then s * 2 ^ 31 + (e - 897) * 2 ^ 23 + rne (2 ^ 52 + m) 29
  else s * 2 ^ 31 + rne (2 ^ 52 + m) (926 - e)

/-- The exact widening `f64::from(g: f32)` on bit patterns (NaN payloads
shift into the top mantissa bits, subnormals renormalize). -/
def f32ToF64Bits (g : Nat) : Nat :=
  let s := g / 2 ^ 31 % 2
  let e := g / 2 ^ 23 % 256
  let m := g % 2 ^ 23
  if e = 255 then
    if m = 0 then s * 2 ^ 63 + 2047 * 2 ^ 52
    else s * 2 ^ 63 + 2047 * 2 ^ 52 + m * 2 ^ 29
  else if e = 0 then
    if m = 0 then s * 2 ^ 63
    else
      s * 2 ^ 63 + (874 + log2floor 52 m) * 2 ^ 52 +
        (m - 2 ^ log2floor 52 m) * 2 ^ (52 - log2floor 52 m)
  else s * 2 ^ 63 + (e + 896) * 2 ^ 52 + m * 2 ^ 29

/-- `f16::from_f32` on bit patterns (the `half` crate's
round-to-nearest-even narrowing; the crate is outside this repository,
modelled from the wire-format documentation of the two-byte IEEE
754-2008 form). -/
def f32ToF16Bits (g : Nat) : Nat :=
  let s := g / 2 ^ 31 % 2
  let e := g / 2 ^ 23 % 256
  let m := g % 2 ^ 23
  if e = 255 then
    if m = 0 then s * 2 ^ 15 + 31 * 2 ^ 10
    else s * 2 ^ 15 + 31 * 2 ^ 10 + 2 ^ 9
  else if e = 0 then s * 2 ^ 15
  else if 143 ≤ e then s * 2 ^ 15 + 31 * 2 ^ 10
  else if 113 ≤ e then s * 2 ^ 15 + (e - 113) * 2 ^ 10 + rne (2 ^ 23 + m) 13
  else s * 2 ^ 15 + rne (2 ^ 23 + m) (126 - e)

/-- Embeds `Float::as_f64`: an `F64` verbatim, an `F32` widened
exactly. -/
def Float.as_f64 : Float → Nat
  | .F64 bits => bits
  | .F32 bits => f32ToF64Bits bits

/-- Embeds `format.rs` `write_f32` over bit patterns: narrow to half,
and keep the half form when it widens back `==`-equal; otherwise the
four-byte single form. -/
def write_f32 (value : Nat) : List Nat :=
  let as_f16 := f32ToF16Bits value
  if f32Eq (f16ToF32Bits as_f16) value then
    write_tiny_atom_header .Float (2 - 1) ++ leBytes 2 as_f16
  else
    write_tiny_atom_header .Float (4 - 1) ++ leBytes 4 value

/-- Embeds `format.rs` `write_f64` over bit patterns: narrow to single,
and delegate to `write_f32` when the single form widens back
`==`-equal; otherwise the eight-byte double form. -/
def write_f64 (value : Nat) : List Nat :=
  let as_f32 := f64ToF32Bits value
  if f64Eq (f32ToF64Bits as_f32) value then write_f32 as_f32
  else write_tiny_atom_header .Float 7 ++ leBytes 8 value

theorem rne_le (x k : Nat) : rne x k ≤ x / 2 ^ k + 1 := by
  simp only [rne]
  split_ifs <;> omega

theorem f64ToF32Bits_lt (f : Nat) : f64ToF32Bits f < 2 ^ 32 := by
  have hs : f / 2 ^ 63 % 2 ≤ 1 := by omega
  have hr29 := rne_le (2 ^ 52 + f % 2 ^ 52) 29
  have hr2 := rne_le (2 ^ 52 + f % 2 ^ 52) (926 - f / 2 ^ 52 % 2048)
  simp only [f64ToF32Bits]
  split_ifs with h1 h2 h3 h4 h5
  · omega
  · omega
  · omega
  · omega
  · omega
  · have h30 : (2 ^ 52 + f % 2 ^ 52) / 2 ^ (926 - f / 2 ^ 52 % 2048) ≤
        (2 ^ 52 + f % 2 ^ 52) / 2 ^ 30 :=
      Nat.div_le_div_left
        (Nat.pow_le_pow_right (by omega) (by omega)) (by positivity)
    omega

theorem f32ToF16Bits_lt (g : Nat) : f32ToF16Bits g < 2 ^ 16 := by
  have hs : g / 2 ^ 31 % 2 ≤ 1 := by omega
  have hr13 := rne_le (2 ^ 23 + g % 2 ^ 23) 13
  have hr2 := rne_le (2 ^ 23 + g % 2 ^ 23) (126 - g / 2 ^ 23 % 256)
  simp only [f32ToF16Bits]
  split_ifs with h1 h2 h3 h4 h5
  · omega
  · omega
  · omega
  · omega
  · omega
  · have h14 : (2 ^ 23 + g % 2 ^ 23) / 2 ^ (126 - g / 2 ^ 23 % 256) ≤
        (2 ^ 23 + g % 2 ^ 23) / 2 ^ 14 :=
      Nat.div_le_div_left
        (Nat.pow_le_pow_right (by omega) (by omega)) (by positivity)
    omega

/-- Narrowing a non-NaN double never produces a NaN single. -/
theorem f64ToF32Bits_not_nan (f : Nat) (h : isNaN64 f = false) :
    isNaN32 (f64ToF32Bits f) = false := by
  simp only [isNaN64, decide_eq_false_iff_not, not_and, ne_eq,
    not_not] at h
  have hs : f / 2 ^ 63 % 2 ≤ 1 := by omega
  have hr29 := rne_le (2 ^ 52 + f % 2 ^ 52) 29
  have hr2 := rne_le (2 ^ 52 + f % 2 ^ 52) (926 - f / 2 ^ 52 % 2048)
  simp only [f64ToF32Bits, isNaN32, decide_eq_false_iff_not, not_and, ne_eq,
    not_not]
  split_ifs with h1 h2 h3 h4 h5
  · intro hfield
    omega
  · intro hfield
    omega
  · intro hfield
    omega
  · intro hfield
    omega
  · intro hfield
    omega
  · have h30 : (2 ^ 52 + f % 2 ^ 52) / 2 ^ (926 - f / 2 ^ 52 % 2048) ≤
        (2 ^ 52 + f % 2 ^ 52) / 2 ^ 30 :=
      Nat.div_le_div_left
        (Nat.pow_le_pow_right (by omega) (by omega)) (by positivity)
    intro hfield
    omega

/-- The source's `f64::from(value as f32) == value` guard implies the
bit patterns agree (IEEE `==` adds only the `-0.0 == 0.0` pair, and the
round trip preserves the sign of zero). -/
theorem f64Eq_roundtrip (f : Nat) (hf : f < 2 ^ 64)
    (h : f64Eq (f32ToF64Bits (f64ToF32Bits f)) f = true) :
    f32ToF64Bits (f64ToF32Bits f) = f := by
  simp only [f64Eq, Bool.and_eq_true, Bool.or_eq_true, Bool.not_eq_true',
    decide_eq_true_eq] at h
  rcases h with ⟨⟨hna, hnf⟩, heq | ⟨hza, hzf⟩⟩
  · exact heq
  · simp only [isZero64, decide_eq_true_eq] at hzf
    have : f = 0 ∨ f = 2 ^ 63 := by omega
    rcases this with rfl | rfl <;> decide

/-- The source's `as_f16.to_f32() == value` guard implies the bit
patterns agree. -/
theorem f32Eq_roundtrip (g : Nat) (hg : g < 2 ^ 32)
    (h : f32Eq (f16ToF32Bits (f32ToF16Bits g)) g = true) :
    f16ToF32Bits (f32ToF16Bits g) = g := by
  simp only [f32Eq, Bool.and_eq_true, Bool.or_eq_true, Bool.not_eq_true',
    decide_eq_true_eq] at h
  rcases h with ⟨⟨hna, hng⟩, heq | ⟨hza, hzg⟩⟩
  · exact heq
  · simp only [isZero32, decide_eq_true_eq] at hzg
    have : g = 0 ∨ g = 2 ^ 31 := by omega
    rcases this with rfl | rfl <;> decide

/-- C4: `write_f64` picks the smallest of the three IEEE forms whose
encoded value widens back bit-equal to the original — half, else single,
else double — with NaN always taking the full width; and reading the
written atom back (`Float::read_from`, then `Float::as_f64`) yields a
bit-equal double. -/
theorem pot_c4_theorem (f : Nat) (hf : f < 2 ^ 64) (rest : List Nat)
    (budget : Nat) (hb : 8 ≤ budget) :
    (isNaN64 f = true →
      write_f64 f = write_tiny_atom_header .Float 7 ++ leBytes 8 f) ∧
    (isNaN64 f = false →
      f32ToF64Bits (f64ToF32Bits f) = f →
      f16ToF32Bits (f32ToF16Bits (f64ToF32Bits f)) = f64ToF32Bits f →
      write_f64 f = write_tiny_atom_header .Float (2 - 1) ++
          leBytes 2 (f32ToF16Bits (f64ToF32Bits f)) ∧
        f32ToF64Bits (f16ToF32Bits (f32ToF16Bits (f64ToF32Bits f))) = f) ∧
    (isNaN64 f = false →
      f32ToF64Bits (f64ToF32Bits f) = f →
      f16ToF32Bits (f32ToF16Bits (f64ToF32Bits f)) ≠ f64ToF32Bits f →
      write_f64 f = write_tiny_atom_header .Float (4 - 1) ++
        leBytes 4 (f64ToF32Bits f)) ∧
    (f32ToF64Bits (f64ToF32Bits f) ≠ f →
      write_f64 f = write_tiny_atom_header .Float 7 ++ leBytes 8 f) ∧
    (∃ (ff : Float) (w : Nat), (w = 2 ∨ w = 4 ∨ w = 8) ∧
      read_atom (write_f64 f ++ rest) budget =
        .ok (⟨.Float, w - 1, some (.Float ff)⟩,
          budget - in_memory_int_size w, rest) ∧
      Float.as_f64 ff = f) := by
  refine ⟨?_, ?_, ?_, ?_, ?_⟩
  · intro hn
    unfold write_f64
    rw [if_neg (by simp [f64Eq, hn])]
  · intro hn h32 h16
    constructor
    · unfold write_f64
      rw [if_pos (by rw [h32]; simp [f64Eq, hn])]
      unfold write_f32
      rw [if_pos (by rw [h16]; simp [f32Eq, f64ToF32Bits_not_nan f hn])]
    · rw [h16, h32]
  · intro hn h32 h16
    unfold write_f64
    rw [if_pos (by rw [h32]; simp [f64Eq, hn])]
    unfold write_f32
    rw [if_neg fun hEq =>
      h16 (f32Eq_roundtrip (f64ToF32Bits f) (f64ToF32Bits_lt f) hEq)]
  · intro h32
    unfold write_f64
    rw [if_neg fun hEq => h32 (f64Eq_roundtrip f hf hEq)]
  · by_cases hEq32 : f64Eq (f32ToF64Bits (f64ToF32Bits f)) f = true
    · have hg := f64Eq_roundtrip f hf hEq32
      by_cases hEq16 : f32Eq
          (f16ToF32Bits (f32ToF16Bits (f64ToF32Bits f)))
          (f64ToF32Bits f) = true
      · have h16 := f32Eq_roundtrip (f64ToF32Bits f) (f64ToF32Bits_lt f)
          hEq16
        refine ⟨.F32 (f16ToF32Bits (f32ToF16Bits (f64ToF32Bits f))), 2,
          Or.inl rfl, ?_, ?_⟩
        · rw [show write_f64 f = write_tiny_atom_header .Float (2 - 1) ++
              leBytes 2 (f32ToF16Bits (f64ToF32Bits f)) by
            unfold write_f64
            rw [if_pos hEq32]
            unfold write_f32
            rw [if_pos hEq16]]
          unfold read_atom
          rw [List.append_assoc, read_tiny_atom_header .Float (2 - 1)
            (by omega)]
          dsimp only
          rw [show (2 - 1 + 1) % 2 ^ 64 = 2 by norm_num]
          unfold update_budget
          rw [if_pos (show in_memory_int_size 2 ≤ budget by
            simp only [in_memory_int_size]; omega)]
          dsimp only
          unfold Float.read_from
          rw [if_pos rfl]
          dsimp only
          rw [readLeNat_leBytes,
            Nat.mod_eq_of_lt (f32ToF16Bits_lt (f64ToF32Bits f))]
          rfl
        · show f32ToF64Bits (f16ToF32Bits (f32ToF16Bits (f64ToF32Bits f))) =
            f
          rw [h16, hg]
      · refine ⟨.F32 (f64ToF32Bits f), 4, Or.inr (Or.inl rfl), ?_, ?_⟩
        · rw [show write_f64 f = write_tiny_atom_header .Float (4 - 1) ++
              leBytes 4 (f64ToF32Bits f) by
            unfold write_f64
            rw [if_pos hEq32]
            unfold write_f32
            rw [if_neg hEq16]]
          unfold read_atom
          rw [List.append_assoc, read_tiny_atom_header .Float (4 - 1)
            (by omega)]
          dsimp only
          rw [show (4 - 1 + 1) % 2 ^ 64 = 4 by norm_num]
          unfold update_budget
          rw [if_pos (show in_memory_int_size 4 ≤ budget by
            simp only [in_memory_int_size]; omega)]
          dsimp only
          unfold Float.read_from
          rw [if_pos rfl]
          dsimp only
          rw [readLeNat_leBytes, Nat.mod_eq_of_lt (f64ToF32Bits_lt f)]
          rfl
        · exact hg
    · refine ⟨.F64 f, 8, Or.inr (Or.inr rfl), ?_, rfl⟩
      rw [show write_f64 f = write_tiny_atom_header .Float 7 ++
          leBytes 8 f by
        unfold write_f64
        rw [if_neg hEq32]]
      unfold read_atom
      rw [List.append_assoc, read_tiny_atom_header .Float 7 (by omega)]
      dsimp only
      rw [show (7 + 1) % 2 ^ 64 = 8 by norm_num]
      unfold update_budget
      rw [if_pos (show in_memory_int_size 8 ≤ budget by
        simp only [in_memory_int_size]; omega)]
      dsimp only
      unfold Float.read_from
      rw [if_pos rfl]
      dsimp only
      rw [readLeNat_leBytes, Nat.mod_eq_of_lt hf]
      rfl

theorem pot_c4_theorem_witness :
    (0x3FF8000000000000 : Nat) < 2 ^ 64 ∧ 8 ≤ 20 ∧
      isNaN64 0x3FF8000000000000 = false ∧
      f32ToF64Bits (f64ToF32Bits 0x3FF8000000000000) = 0x3FF8000000000000 ∧
      f16ToF32Bits (f32ToF16Bits (f64ToF32Bits 0x3FF8000000000000)) =
        f64ToF32Bits 0x3FF8000000000000 ∧
      (write_f64 0x3FF8000000000000 =
          write_tiny_atom_header .Float (2 - 1) ++
            leBytes 2 (f32ToF16Bits (f64ToF32Bits 0x3FF8000000000000)) ∧
        f32ToF64Bits
            (f16ToF32Bits (f32ToF16Bits (f64ToF32Bits 0x3FF8000000000000))) =
          0x3FF8000000000000) ∧
      (∃ (ff : Float) (w : Nat), (w = 2 ∨ w = 4 ∨ w = 8) ∧
        read_atom (write_f64 0x3FF8000000000000 ++ [9]) 20 =
          .ok (⟨.Float, w - 1, some (.Float ff)⟩,
            20 - in_memory_int_size w, [9]) ∧
        Float.as_f64 ff = 0x3FF8000000000000) :=
  ⟨by decide, by decide, by decide, by decide, by decide,
    (pot_c4_theorem 0x3FF8000000000000 (by decide) [9] 20 (by decide)).2.1
      (by decide) (by decide) (by decide),
    (pot_c4_theorem 0x3FF8000000000000 (by decide) [9] 20 (by decide)).2.2.2.2⟩

end Pot
